import Mathlib

/-!
# Verification of the kson2toml renderer

A shallow embedding of `src/kson2toml/ast.py` and `src/kson2toml/kson2toml.py`:
the TOML output-node AST, its rendering functions, the node builder from the
parsed KSON value tree, and the top-level conversion `kson_to_toml_string`.

Python strings are modelled as Lean `String` (a wrapper around `List Char` in
this toolchain); the Python string operations used by the source
(`replace`, `strip`, `rstrip`, `split`, `join`, `in`, `startswith`, `endswith`,
`textwrap.dedent`) are reimplemented below with Python's semantics, restricted
to the ASCII whitespace set (the source never manipulates exotic Unicode
whitespace).  Python dicts that the source iterates or sorts are modelled as
insertion-ordered association lists, matching dict semantics for the
unique-key dictionaries the source constructs.
-/

namespace Kson2Toml

/-- Python `str.isspace` characters (ASCII range), as used by `strip`/`rstrip`. -/
def isPySpace (c : Char) : Bool :=
  c = ' ' || c = '\t' || c = '\n' || c = '\r' || c = '\x0b' || c = '\x0c'

/-- Left strip (Python `lstrip`) on character lists. -/
def pyLstripL (l : List Char) : List Char := l.dropWhile isPySpace

/-- Right strip (Python `rstrip`) on character lists. -/
def pyRstripL (l : List Char) : List Char := (l.reverse.dropWhile isPySpace).reverse

/-- Python `str.strip`. -/
def pyStripL (l : List Char) : List Char := pyRstripL (pyLstripL l)

def pyStrip (s : String) : String := ⟨pyStripL s.data⟩

def pyRstrip (s : String) : String := ⟨pyRstripL s.data⟩

/-- Python `sub in s` for a single-character `sub`. -/
def containsChar (c : Char) (s : String) : Bool := s.data.contains c

/-- Python `sub in s` (substring containment, empty pattern is contained). -/
def hasSubL : List Char → List Char → Bool
  | pat, [] => pat.isEmpty
  | pat, a :: l => pat.isPrefixOf (a :: l) || hasSubL pat l

def containsSub (pat s : String) : Bool := hasSubL pat.data s.data

/-- Python `s.startswith(p)`. -/
def strStartsWith (s p : String) : Bool := p.data.isPrefixOf s.data

/-- Python `s.endswith(p)`. -/
def strEndsWith (s p : String) : Bool := p.data.isSuffixOf s.data

/-- Python `s.replace(p, rep)` for a one-character pattern `p`
(left-to-right, non-overlapping — for a single character this is a map). -/
def replace1 (p : Char) (rep : List Char) : List Char → List Char
  | [] => []
  | a :: l => if a = p then rep ++ replace1 p rep l else a :: replace1 p rep l

/-- Python `s.replace(p1 p2, rep)` for a two-character pattern
(left-to-right, non-overlapping: a match consumes both characters). -/
def replace2 (p1 p2 : Char) (rep : List Char) : List Char → List Char
  | [] => []
  | [a] => [a]
  | a :: b :: l =>
    if a = p1 && b = p2 then rep ++ replace2 p1 p2 rep l
    else a :: replace2 p1 p2 rep (b :: l)

/-- Python `s.replace(p1 p2 p3, rep)` for a three-character pattern. -/
def replace3 (p1 p2 p3 : Char) (rep : List Char) : List Char → List Char
  | [] => []
  | [a] => [a]
  | [a, b] => [a, b]
  | a :: b :: c :: l =>
    if a = p1 && b = p2 && c = p3 then rep ++ replace3 p1 p2 p3 rep l
    else a :: replace3 p1 p2 p3 rep (b :: c :: l)

/-- Python `s.split(sep)` for a one-character separator: splits at every
occurrence, keeping empty pieces (`"a\n\n".split('\n') = ["a", "", ""]`). -/
def splitCharL (sep : Char) : List Char → List (List Char)
  | [] => [[]]
  | a :: l =>
    let rest := splitCharL sep l
    if a = sep then [] :: rest
    else
      match rest with
      | [] => [[a]]
      | piece :: pieces => (a :: piece) :: pieces

/-- Python `source.split('\n')`. -/
def pySplitLines (s : String) : List String := (splitCharL '\n' s.data).map String.mk

/-- Python `sep.join(parts)` on character lists. -/
def joinWithL (sep : List Char) : List (List Char) → List Char
  | [] => []
  | [x] => x
  | x :: y :: rest => x ++ sep ++ joinWithL sep (y :: rest)

/-- Python `sep.join(parts)`. -/
def joinWith (sep : String) (parts : List String) : String :=
  ⟨joinWithL sep.data (parts.map String.data)⟩

/-- `'    ' * n` style indent strings. -/
def spaces (n : Nat) : String := ⟨List.replicate n ' '⟩

/-- Python truthiness of an optional string (`None` and `''` are falsy). -/
def pyTruthyOptStr : Option String → Bool
  | none => false
  | some s => !s.data.isEmpty

/-- Longest common prefix of two character lists (the net effect of
`textwrap.dedent`'s margin-update loop). -/
def commonPrefixL : List Char → List Char → List Char
  | a :: l, b :: m => if a = b then a :: commonPrefixL l m else []
  | _, _ => []

/-- `' '` or `'\t'`, the indent characters `textwrap.dedent` considers. -/
def isIndentChar (c : Char) : Bool := c = ' ' || c = '\t'

/-- Python `textwrap.dedent`: lines consisting only of spaces/tabs are
normalized to empty; the longest common leading-whitespace prefix of the
remaining lines (the margin) is removed from every line that starts with it. -/
def pyDedent (s : String) : String :=
  let lines := splitCharL '\n' s.data
  let norm := lines.map (fun l => if !l.isEmpty && l.all isIndentChar then [] else l)
  let indents := norm.filterMap
    (fun l => if l.isEmpty then none else some (l.takeWhile isIndentChar))
  let margin :=
    match indents with
    | [] => ([] : List Char)
    | i :: rest => rest.foldl commonPrefixL i
  ⟨joinWithL ['\n']
    (norm.map (fun l => if margin.isPrefixOf l then l.drop margin.length else l))⟩

/-- Insertion into a sorted `List Int` (for Python `sorted`). -/
def insSorted (x : Int) : List Int → List Int
  | [] => [x]
  | y :: l => if x ≤ y then x :: y :: l else y :: insSorted x l

/-- Python `sorted` on a list of ints (insertion sort; stable, though the
source only sorts dict keys, which are distinct). -/
def sortInts : List Int → List Int
  | [] => []
  | x :: l => insSorted x (sortInts l)

/-- Python `str(n)` for a nonnegative integer, digits in base 10
(fuel-based structural recursion; `fuel ≥ n` suffices). -/
def natDigits (fuel n : Nat) : List Char :=
  match fuel with
  | 0 => []
  | fuel + 1 =>
    let d := Char.ofNat (48 + n % 10)
    if n < 10 then [d] else natDigits fuel (n / 10) ++ [d]

/-- Python `str(v)` for an `int`. -/
def intCanonical (v : Int) : String :=
  if v < 0 then ⟨'-' :: natDigits (v.natAbs + 1) v.natAbs⟩
  else ⟨natDigits (v.natAbs + 1) v.natAbs⟩

/-! ## The TOML output-node AST (`ast.py` classes) -/

/-- The TOML AST node (`TomlNode` subclasses in `ast.py`).  The transient
`allow_multiline` flag of `TomlString` is a field; the mutation performed
during table rendering is modelled separately (`table_post_state`). -/
inductive TomlNode where
  | string (value : String) (allow_multiline : Bool)
  | integer (value : Int) (literal : Option String)
  | float (valueStr : String) (literal : Option String)
  | boolean (value : Bool)
  | null
  | array (elements : List TomlNode) (start_line end_line : Option Nat)
  | table (properties : List (String × TomlNode))
  | embed (content : String) (tag : Option String) (metadata : Option String)
      (has_escapes : Bool)

/-- `isinstance(e, TomlTable)`. -/
def isTableN : TomlNode → Bool
  | .table _ => true
  | _ => false

/-- `isinstance(e, TomlArray)`. -/
def isArrayN : TomlNode → Bool
  | .array _ _ _ => true
  | _ => false

def elementsOf : TomlNode → List TomlNode
  | .array es _ _ => es
  | _ => []

def propsOf : TomlNode → List (String × TomlNode)
  | .table ps => ps
  | _ => []

/-- `TomlString.__init__`: the KSON `$`-whitespace escapes are replaced by a
tab before the value is stored (`value.replace('$ ', '\t').replace('$\t', '\t')`). -/
def mkTomlString (value : String) (allow_multiline : Bool) : TomlNode :=
  TomlNode.string ⟨replace2 '$' '\t' ['\t'] (replace2 '$' ' ' ['\t'] value.data)⟩
    allow_multiline

/-- `TomlArray.check_heterogeneous`: true iff some element is an array
containing a table AND some element is anything else (an array without
tables, a direct table, or a primitive). -/
def check_heterogeneous (elements : List TomlNode) : Bool :=
  if elements.isEmpty then false
  else
    let flags := elements.foldl
      (fun (f : Bool × Bool) e =>
        match e with
        | .array inner _ _ => if inner.any isTableN then (true, f.2) else (f.1, true)
        | _ => (f.1, true))
      (false, false)
    flags.1 && flags.2

/-- The six kind flags counted by `TomlArray.needs_array_of_tables_format`. -/
structure KindFlags where
  has_string : Bool
  has_number : Bool
  has_boolean : Bool
  has_null : Bool
  has_array : Bool
  has_table : Bool

def kindFlagsOf (elements : List TomlNode) : KindFlags :=
  elements.foldl
    (fun f e =>
      match e with
      | .string _ _ => { f with has_string := true }
      | .integer _ _ => { f with has_number := true }
      | .float _ _ => { f with has_number := true }
      | .boolean _ => { f with has_boolean := true }
      | .null => { f with has_null := true }
      | .array _ _ _ => { f with has_array := true }
      | .table _ => { f with has_table := true }
      | .embed _ _ _ _ => f)
    ⟨false, false, false, false, false, false⟩

/-- `TomlArray.needs_array_of_tables_format` (root-context classifier). -/
def needs_array_of_tables_format (elements : List TomlNode) : Bool :=
  if elements.isEmpty then false
  else
    let f := kindFlagsOf elements
    if f.has_array && (f.has_number || f.has_boolean || f.has_null || f.has_table) then
      true
    else
      let primitive_types_count :=
        (if f.has_string then 1 else 0) + (if f.has_number then 1 else 0) +
        (if f.has_boolean then 1 else 0) + (if f.has_null then 1 else 0)
      if primitive_types_count ≥ 2 then true else false

/-! ## Leaf renderers -/

/-- `TomlString.to_toml`. -/
def TomlString_to_toml (value : String) (allow_multiline : Bool) : String :=
  let has_real_newlines := containsChar '\n' value
  let has_real_tabs := containsChar '\t' value
  if allow_multiline && (has_real_newlines || has_real_tabs)
      && !(pyStrip value).data.isEmpty then
    "\"\"\"" ++ value ++ "\"\"\""
  else
    let has_single_quote := containsChar '\x27' value
    let has_backslash := containsChar '\\' value
    let has_double_quote := containsChar '"' value
    if has_backslash && has_double_quote && !has_single_quote then
      "\x27" ++ String.mk (replace1 '\\' ['\\', '\\'] value.data) ++ "\x27"
    else
      let e1 := replace1 '\\' ['\\', '\\'] value.data
      let e2 := replace1 '"' ['\\', '"'] e1
      let e3 := if e2.contains '\n' then replace1 '\n' ['\\', 'n'] e2 else e2
      ⟨'"' :: (e3 ++ ['"'])⟩

/-- `TomlInteger.to_toml` (`self.literal if self.literal else str(self.value)`;
note an empty-string literal is falsy in Python). -/
def TomlInteger_to_toml (value : Int) (literal : Option String) : String :=
  match literal with
  | some l => if l.data.isEmpty then intCanonical value else l
  | none => intCanonical value

/-- `TomlFloat.to_toml`; `valueStr` stands for Python's `str(self.value)`. -/
def TomlFloat_to_toml (valueStr : String) (literal : Option String) : String :=
  match literal with
  | some l => if l.data.isEmpty then valueStr else l
  | none => valueStr

def TomlBoolean_to_toml (value : Bool) : String := if value then "true" else "false"

def TomlNull_to_toml : String := "\"null\""

/-- `TomlEmbed.to_toml`. -/
def TomlEmbed_to_toml (content : String) (has_escapes : Bool) : String :=
  let c1 := if !has_escapes then pyDedent content else content
  let c2 := if !(strEndsWith c1 "\n") then c1 ++ "\n" else c1
  let c3 : String := ⟨replace1 '\\' ['\\', '\\'] c2.data⟩
  "\"\"\"\n" ++ c3 ++ "\"\"\""

/-- Key quoting used by `TomlTable` (both in `to_inline` and `to_toml`):
quote if the key contains a space or hyphen or is a reserved word. -/
def quoteKey (key : String) : String :=
  if containsChar ' ' key || containsChar '-' key
      || key = "false" || key = "true" || key = "null" then
    "\"" ++ key ++ "\""
  else key

/-! ## Comments dictionary (Python `{line_num: [comment_texts]}`) -/

/-- The inline-comments dict: insertion-ordered association list.  Keys are
`Int` because the root wrapper files leading comments under key `-1`. -/
abbrev CDict := List (Int × List String)

def cdictKeys (cm : CDict) : List Int := cm.map (fun p => p.1)

/-- `comments[line_num]` (keys are unique in the dicts the source builds). -/
def cdictLookup (cm : CDict) (k : Int) : List String :=
  ((cm.find? (fun p => p.1 = k)).map (fun p => p.2)).getD []

/-- Python `dict.update`: overwrite in place or append. -/
def cdictUpdate (base entries : CDict) : CDict :=
  entries.foldl
    (fun d p =>
      if (d.find? (fun q => q.1 = p.1)).isSome then
        d.map (fun q => if q.1 = p.1 then p else q)
      else d ++ [p])
    base

/-! ## Property-comment attachment (`TomlTable.to_toml` lines 376-398) -/

/-- The key text of a source line: the text before the first `:` of the
stripped line, itself stripped, with surrounding double quotes removed —
`None` when the line has no `:` or is a comment line. -/
def lineKeyPart (line : String) : Option String :=
  let stripped := pyStrip line
  if containsChar ':' stripped && !(strStartsWith stripped "#") then
    let kp := pyStrip ⟨stripped.data.takeWhile (fun c => !(c = ':'))⟩
    if strStartsWith kp "\"" && strEndsWith kp "\"" then
      some ⟨(kp.data.drop 1).dropLast⟩
    else some kp
  else none

/-- `key_line[k]`: the source line whose key text equals `k` (the source
loop overwrites on every match, so the last matching line wins). -/
def keyLineOf (sourceLines : List String) (k : String) : Option Nat :=
  sourceLines.enum.foldl
    (fun acc p => if lineKeyPart p.2 = some k then some p.1 else acc)
    none

/-- `property_comments[k]`: every comment group keyed to `k`'s line, in
dict order, concatenated. -/
def propertyCommentsFor (cm : CDict) (sourceLines : List String) (k : String) :
    List String :=
  (cm.filter
    (fun p =>
      match keyLineOf sourceLines k with
      | some kl => p.1 = (kl : Int)
      | none => false)).foldr (fun p acc => p.2 ++ acc) []

/-! ## Property partition (`TomlTable.to_toml` lines 359-371) -/

/-- One pass over the properties, splitting into
(simple values, arrays containing tables, nested tables), order preserved. -/
def partitionProps :
    List (String × TomlNode) →
    (List (String × TomlNode)) × (List (String × TomlNode)) × (List (String × TomlNode))
  | [] => ([], [], [])
  | (k, v) :: rest =>
    let pr := partitionProps rest
    match v with
    | .table _ => (pr.1, pr.2.1, (k, v) :: pr.2.2)
    | .array es _ _ =>
      if es.any isTableN then (pr.1, (k, v) :: pr.2.1, pr.2.2)
      else ((k, v) :: pr.1, pr.2.1, pr.2.2)
    | _ => ((k, v) :: pr.1, pr.2.1, pr.2.2)

theorem partitionProps_fst_sizeOf_le (ps : List (String × TomlNode)) :
    sizeOf (partitionProps ps).1 ≤ sizeOf ps := by
  induction ps with
  | nil => simp [partitionProps]
  | cons h t ih =>
    obtain ⟨k, v⟩ := h
    simp only [partitionProps]
    cases v <;> simp only [partitionProps] <;> (try split) <;> (try simp_all) <;> omega

theorem partitionProps_snd_sizeOf_le (ps : List (String × TomlNode)) :
    sizeOf (partitionProps ps).2.1 ≤ sizeOf ps := by
  induction ps with
  | nil => simp [partitionProps]
  | cons h t ih =>
    obtain ⟨k, v⟩ := h
    simp only [partitionProps]
    cases v <;> simp only [partitionProps] <;> (try split) <;> (try simp_all) <;> omega

theorem partitionProps_thd_sizeOf_le (ps : List (String × TomlNode)) :
    sizeOf (partitionProps ps).2.2 ≤ sizeOf ps := by
  induction ps with
  | nil => simp [partitionProps]
  | cons h t ih =>
    obtain ⟨k, v⟩ := h
    simp only [partitionProps]
    cases v <;> simp only [partitionProps] <;> (try split) <;> (try simp_all) <;> omega

/-! ## The renderer (`to_toml` methods), as one mutual recursion -/

/-- `full_path = f'{table_path}.{key}' if table_path else key`. -/
def joinPath (path key : String) : String :=
  if path.data.isEmpty then key else path ++ "." ++ key

/-- The plain multi-line array body: indent每 element, comma after every
element but the last (`TomlArray.to_toml` lines 307-312). -/
def addCommas (pre : String) : List String → List String
  | [] => []
  | [x] => [pre ++ x]
  | x :: y :: rest => (pre ++ x ++ ",") :: addCommas pre (y :: rest)

mutual

/-- Runtime dispatch of `node.to_toml(indent_level, comments, source)`.
A `TomlTable` reaches a generic dispatch site only through
`kson_to_toml_string` (no-argument or keyword call, so `table_path = ''`). -/
def to_toml_node (n : TomlNode) (indent : Nat) (cm : CDict) (source : Option String) :
    String :=
  match n with
  | .string v am => TomlString_to_toml v am
  | .integer v lit => TomlInteger_to_toml v lit
  | .float vs lit => TomlFloat_to_toml vs lit
  | .boolean b => TomlBoolean_to_toml b
  | .null => TomlNull_to_toml
  | .array es _ _ => to_toml_array es indent cm source
  | .table ps => to_toml_table ps indent "" cm source
  | .embed c _ _ he => TomlEmbed_to_toml c he
termination_by (sizeOf n, 2)
decreasing_by
  all_goals first
  | (apply Prod.Lex.right; omega)
  | (apply Prod.Lex.left; simp; try omega)
  | (apply Prod.Lex.left; subst_vars; simp; try omega)

/-- `TomlArray.to_toml`. -/
def to_toml_array (elements : List TomlNode) (indent : Nat) (cm : CDict)
    (source : Option String) : String :=
  if elements.isEmpty then "[]"
  else
    let has_tables := elements.any isTableN
    let has_arrays := elements.any isArrayN
    let has_comments := !cm.isEmpty
    if has_tables then
      "[" ++ joinWith ", " (inlineElems elements indent source) ++ "]"
    else if has_arrays || elements.length > 3 || has_comments then
      let ind := spaces (4 * indent)
      let bodyLines :=
        if pyTruthyOptStr source && !cm.isEmpty then
          let sortedLines := sortInts (cdictKeys cm)
          let compact := sortedLines.length = 1 && sortedLines.getD 0 0 = -1
          arrCommentedLoop elements 0 elements.length sortedLines cm source indent
            compact []
        else
          addCommas (spaces (4 * (indent + 1)))
            (renderElemsFlat elements (indent + 1) source)
      joinWith "\n" (["["] ++ bodyLines ++ [ind ++ "]"])
    else
      "[" ++ joinWith ", " (renderElemsFlat elements indent source) ++ "]"
termination_by (sizeOf elements, 1)
decreasing_by
  all_goals first
  | (apply Prod.Lex.right; omega)
  | (apply Prod.Lex.left; simp; try omega)
  | (apply Prod.Lex.left; subst_vars; simp; try omega)

/-- Elements of an array that contains tables: inline-table syntax for the
table elements, plain rendering (with empty comments) for the rest. -/
def inlineElems (es : List TomlNode) (indent : Nat) (source : Option String) :
    List String :=
  match es with
  | [] => []
  | .table ps :: rest => to_inline ps :: inlineElems rest indent source
  | e :: rest => to_toml_node e indent [] source :: inlineElems rest indent source
termination_by (sizeOf es, 0)
decreasing_by
  all_goals first
  | (apply Prod.Lex.right; omega)
  | (apply Prod.Lex.left; simp; try omega)
  | (apply Prod.Lex.left; subst_vars; simp; try omega)

/-- `elem.to_toml(indentArg, {}, source)` for every element. -/
def renderElemsFlat (es : List TomlNode) (indentArg : Nat) (source : Option String) :
    List String :=
  match es with
  | [] => []
  | e :: rest => to_toml_node e indentArg [] source :: renderElemsFlat rest indentArg source
termination_by (sizeOf es, 0)
decreasing_by
  all_goals first
  | (apply Prod.Lex.right; omega)
  | (apply Prod.Lex.left; simp; try omega)
  | (apply Prod.Lex.left; subst_vars; simp; try omega)

/-- The comment-distributing element loop of `TomlArray.to_toml`
(lines 264-305), including the leftover-comments tail after the loop. -/
def arrCommentedLoop (es : List TomlNode) (i total : Nat) (sortedLines : List Int)
    (cm : CDict) (source : Option String) (indent : Nat) (compact : Bool)
    (consumed : List Int) : List String :=
  match es with
  | [] =>
    ((sortedLines.drop i).filter (fun ln => !consumed.contains ln)).foldr
      (fun ln acc =>
        ((cdictLookup cm ln).map (fun c => spaces (4 * (indent + 1)) ++ c)) ++ acc)
      []
  | e :: rest =>
    let elemComments : CDict :=
      match e with
      | .array _ (some sl) (some el) =>
        cm.filter (fun p => p.1 ≥ 0 && (sl : Int) ≤ p.1 && p.1 ≤ (el : Int))
      | _ => []
    let consumed2 := consumed ++ elemComments.map (fun p => p.1)
    let ind := spaces (4 * indent)
    let nextInd := spaces (4 * (indent + 1))
    let elemInd := if compact then ind else nextInd
    let commentLines : List String :=
      if i < sortedLines.length then
        let ln := sortedLines.getD i 0
        if consumed2.contains ln then []
        else
          let cInd := if ln = -1 then (if compact then ind else nextInd) else nextInd
          (cdictLookup cm ln).map (fun c => cInd ++ c)
      else []
    let elemStr := to_toml_node e (if compact then indent else indent + 1) elemComments source
    let elemLine := elemInd ++ elemStr ++ (if i < total - 1 then "," else "")
    commentLines ++ [elemLine]
      ++ arrCommentedLoop rest (i + 1) total sortedLines cm source indent compact consumed2
termination_by (sizeOf es, 0)
decreasing_by
  all_goals first
  | (apply Prod.Lex.right; omega)
  | (apply Prod.Lex.left; simp; try omega)
  | (apply Prod.Lex.left; subst_vars; simp; try omega)

/-- `TomlTable.to_inline`. -/
def to_inline (props : List (String × TomlNode)) : String :=
  "\x7b" ++ joinWith ", " (inlineItems props) ++ "\x7d"
termination_by (sizeOf props, 1)
decreasing_by
  all_goals first
  | (apply Prod.Lex.right; omega)
  | (apply Prod.Lex.left; simp; try omega)
  | (apply Prod.Lex.left; subst_vars; simp; try omega)

/-- Items of an inline table; the source's array/non-array branches both
call `value.to_toml(0)` (comments and source default to none). -/
def inlineItems (props : List (String × TomlNode)) : List String :=
  match props with
  | [] => []
  | (key, value) :: rest =>
    (quoteKey key ++ " = " ++ to_toml_node value 0 [] none) :: inlineItems rest
termination_by (sizeOf props, 0)
decreasing_by
  all_goals first
  | (apply Prod.Lex.right; omega)
  | (apply Prod.Lex.left; simp; try omega)
  | (apply Prod.Lex.left; subst_vars; simp; try omega)

/-- `TomlTable.to_toml`. -/
def to_toml_table (props : List (String × TomlNode)) (indent : Nat) (path : String)
    (cm : CDict) (source : Option String) : String :=
  let sv := (partitionProps props).1
  let pc : String → List String :=
    match source with
    | some src =>
      if pyTruthyOptStr source && !cm.isEmpty && !sv.isEmpty then
        fun k => propertyCommentsFor cm (pySplitLines src) k
      else fun _ => []
    | none => fun _ => []
  let l1 := simpleLoop (partitionProps props).1 pc indent path source []
  let l2 := aotLoop (partitionProps props).2.1 path source l1
  let l3 := ntLoop (partitionProps props).2.2 path source l2
  joinWith "\n" l3
termination_by (sizeOf props, 1)
decreasing_by
  · have h := partitionProps_fst_sizeOf_le props
    rcases Nat.lt_or_ge (sizeOf (partitionProps props).1) (sizeOf props) with hlt | hge
    · exact Prod.Lex.left _ _ hlt
    · have heq : sizeOf (partitionProps props).1 = sizeOf props := by omega
      rw [heq]; exact Prod.Lex.right _ (by omega)
  · have h := partitionProps_snd_sizeOf_le props
    rcases Nat.lt_or_ge (sizeOf (partitionProps props).2.1) (sizeOf props) with hlt | hge
    · exact Prod.Lex.left _ _ hlt
    · have heq : sizeOf (partitionProps props).2.1 = sizeOf props := by omega
      rw [heq]; exact Prod.Lex.right _ (by omega)
  · have h := partitionProps_thd_sizeOf_le props
    rcases Nat.lt_or_ge (sizeOf (partitionProps props).2.2) (sizeOf props) with hlt | hge
    · exact Prod.Lex.left _ _ hlt
    · have heq : sizeOf (partitionProps props).2.2 = sizeOf props := by omega
      rw [heq]; exact Prod.Lex.right _ (by omega)

/-- The simple-values emission loop of `TomlTable.to_toml` (lines 404-430);
`acc` is the accumulated `lines` list. -/
def simpleLoop (svs : List (String × TomlNode)) (pc : String → List String)
    (indent : Nat) (path : String) (source : Option String) (acc : List String) :
    List String :=
  match svs with
  | [] => acc
  | (key, TomlNode.embed c t m he) :: rest =>
    let acc1 := acc ++ pc key
    let acc2 :=
      if key = "embedContent" then
        acc1 ++ [quoteKey key ++ " = " ++ TomlEmbed_to_toml c he]
      else
        let acc' := if acc1.isEmpty then acc1 else acc1 ++ [""]
        acc' ++ ["[" ++ joinPath path key ++ "]",
                 "embedContent = " ++ TomlEmbed_to_toml c he]
    simpleLoop rest pc indent path source acc2
  | (key, TomlNode.string s am) :: rest =>
    let acc1 := acc ++ pc key
    let value_str :=
      if key = "embedContent" then TomlString_to_toml s false
      else TomlString_to_toml s am
    simpleLoop rest pc indent path source
      (acc1 ++ [quoteKey key ++ " = " ++ value_str])
  | (key, value) :: rest =>
    let acc1 := acc ++ pc key
    simpleLoop rest pc indent path source
      (acc1 ++ [quoteKey key ++ " = " ++ to_toml_node value indent [] source])
termination_by (sizeOf svs, 0)
decreasing_by
  all_goals first
  | (apply Prod.Lex.right; omega)
  | (apply Prod.Lex.left; simp; try omega)
  | (apply Prod.Lex.left; subst_vars; simp; try omega)

/-- The array-of-tables emission loop (`TomlTable.to_toml` lines 433-441);
only array-valued entries occur here (guaranteed by the partition). -/
def aotLoop (nas : List (String × TomlNode)) (path : String) (source : Option String)
    (acc : List String) : List String :=
  match nas with
  | [] => acc
  | (key, .array es _ _) :: rest =>
    aotLoop rest path source (aotElemsLoop es key path source acc)
  | _ :: rest => aotLoop rest path source acc
termination_by (sizeOf nas, 0)
decreasing_by
  all_goals first
  | (apply Prod.Lex.right; omega)
  | (apply Prod.Lex.left; simp; try omega)
  | (apply Prod.Lex.left; subst_vars; simp; try omega)

/-- Per-element inner loop of the array-of-tables emission: each table
element becomes a `[[path]]` block whose body drops blank lines and
bracketed header lines; non-table elements are skipped. -/
def aotElemsLoop (es : List TomlNode) (key path : String) (source : Option String)
    (acc : List String) : List String :=
  match es with
  | [] => acc
  | .table ps :: rest =>
    let fullPath := joinPath path key
    let a1 := if acc.isEmpty then acc else acc ++ [""]
    let a2 := a1 ++ ["[[" ++ fullPath ++ "]]"]
    let tlines := pySplitLines (to_toml_table ps 0 fullPath [] source)
    let a3 := a2 ++ tlines.filter
      (fun l => !(pyStrip l).data.isEmpty && !(strStartsWith (pyStrip l) "["))
    aotElemsLoop rest key path source a3
  | _ :: rest => aotElemsLoop rest key path source acc
termination_by (sizeOf es, 0)
decreasing_by
  all_goals first
  | (apply Prod.Lex.right; omega)
  | (apply Prod.Lex.left; simp; try omega)
  | (apply Prod.Lex.left; subst_vars; simp; try omega)

/-- The nested-tables emission loop (`TomlTable.to_toml` lines 444-449);
only table-valued entries occur here (guaranteed by the partition). -/
def ntLoop (nts : List (String × TomlNode)) (path : String) (source : Option String)
    (acc : List String) : List String :=
  match nts with
  | [] => acc
  | (key, .table ps) :: rest =>
    let fullPath := joinPath path key
    let a1 := if acc.isEmpty then acc else acc ++ [""]
    let a2 := a1 ++ ["[" ++ fullPath ++ "]", to_toml_table ps 0 fullPath [] source]
    ntLoop rest path source a2
  | _ :: rest => ntLoop rest path source acc
termination_by (sizeOf nts, 0)
decreasing_by
  all_goals first
  | (apply Prod.Lex.right; omega)
  | (apply Prod.Lex.left; simp; try omega)
  | (apply Prod.Lex.left; subst_vars; simp; try omega)

end

/-! ## The KSON value tree (the external parser's output interface) -/

/-- A source position (`.line()` / `.column()` of the external parser's
position objects; the spec guarantees every node carries a span). -/
structure KPos where
  line : Nat
  column : Nat

/-- The externally parsed KSON value tree, as consumed by `kson_value_to_ast`:
the eight recognized kinds (`KsonValueType`), plus `unknown`, standing for a
value whose `value_type()` matches none of them (the `else: raise ValueError`
branch).  A `decimal` carries `valueStr`, Python's `str(value)` for its float
payload, which is all the renderer ever uses of it. -/
inductive KsonValue where
  | string (value : String) (startPos endPos : KPos)
  | integer (value : Int) (startPos endPos : KPos)
  | decimal (valueStr : String) (startPos endPos : KPos)
  | boolean (value : Bool) (startPos endPos : KPos)
  | null (startPos endPos : KPos)
  | array (elements : List KsonValue) (startPos endPos : KPos)
  | object (properties : List (String × KsonValue)) (startPos endPos : KPos)
  | embed (content : String) (tag metadata : Option String) (startPos endPos : KPos)
  | unknown (tagName : String)

/-- Slicing loop of `extract_literal_text` for a multi-line span; any
out-of-range line index raises in Python and is caught, yielding `None`. -/
def sliceRange (lines : List String) (sp ep : KPos) : Option (List String) :=
  (List.range' sp.line (ep.line + 1 - sp.line)).mapM
    (fun ln =>
      (lines.get? ln).map (fun l =>
        if ln = sp.line then String.mk (l.data.drop sp.column)
        else if ln = ep.line then String.mk (l.data.take ep.column)
        else l))

/-- `extract_literal_text`: slice the source text between the node's start
and end positions; `None` when tokens or source are absent or an index is
out of range (the bare `except` catches everything). -/
def extract_literal_text (startPos endPos : KPos) (tokens : Option Unit)
    (source : Option String) : Option String :=
  match tokens, source with
  | some _, some src =>
    let lines := pySplitLines src
    if startPos.line = endPos.line then
      match lines.get? startPos.line with
      | some l => some (String.mk ((l.data.take endPos.column).drop startPos.column))
      | none => none
    else
      (sliceRange lines startPos endPos).map (joinWith "\n")
  | _, _ => none

/-- `extract_raw_embed_content`: detect escape markers; for structurally
simple content, halve the doubled delimiter markers and report no escapes. -/
def extract_raw_embed_content (content : String) : String × Bool :=
  let has_escapes := containsSub "%\\%" content || containsSub "$\\$" content
      || containsChar '\\' content
  if containsSub "%\\%" content || containsSub "$\\$" content then
    let has_kson_structure :=
      containsSub ":\n" content || containsSub ":\r" content
        || containsSub ": " content || containsSub "\n$" content
        || containsSub "\n%" content
    if !has_kson_structure then
      (String.mk (replace3 '$' '\\' '$' ['$', '$']
         (replace3 '%' '\\' '%' ['%', '%'] content.data)), false)
    else (content, has_escapes)
  else (content, has_escapes)

mutual

/-- `kson_value_to_ast`: build one TOML output node from a KSON value. -/
def kson_value_to_ast (kv : KsonValue) (tokens : Option Unit) (source : Option String) :
    Except String TomlNode :=
  match kv with
  | .string v _ _ => .ok (mkTomlString v true)
  | .integer v s e => .ok (.integer v (extract_literal_text s e tokens source))
  | .decimal r s e => .ok (.float r (extract_literal_text s e tokens source))
  | .boolean b _ _ => .ok (.boolean b)
  | .null _ _ => .ok TomlNode.null
  | .array es s e =>
    match ksonListToAst es tokens source with
    | .ok elems => .ok (.array elems (some s.line) (some e.line))
    | .error msg => .error msg
  | .object ps _ _ =>
    match ksonPropsToAst ps tokens source with
    | .ok props => .ok (.table props)
    | .error msg => .error msg
  | .embed c t m _ _ =>
    let pr := extract_raw_embed_content c
    .ok (.embed pr.1 t m pr.2)
  | .unknown tag => .error ("Tipo de valor Kson no soportado: " ++ tag)
termination_by (sizeOf kv, 1)
decreasing_by
  all_goals first
  | (apply Prod.Lex.right; omega)
  | (apply Prod.Lex.left; simp; try omega)
  | (apply Prod.Lex.left; subst_vars; simp; try omega)

/-- The elements comprehension of the `ARRAY` case (fails at the first
unsupported element, as the Python comprehension would). -/
def ksonListToAst (es : List KsonValue) (tokens : Option Unit) (source : Option String) :
    Except String (List TomlNode) :=
  match es with
  | [] => .ok []
  | e :: rest =>
    match kson_value_to_ast e tokens source with
    | .error msg => .error msg
    | .ok n =>
      match ksonListToAst rest tokens source with
      | .error msg => .error msg
      | .ok ns => .ok (n :: ns)
termination_by (sizeOf es, 0)
decreasing_by
  all_goals first
  | (apply Prod.Lex.right; omega)
  | (apply Prod.Lex.left; simp; try omega)
  | (apply Prod.Lex.left; subst_vars; simp; try omega)

/-- The properties loop of the `OBJECT` case. -/
def ksonPropsToAst (ps : List (String × KsonValue)) (tokens : Option Unit)
    (source : Option String) : Except String (List (String × TomlNode)) :=
  match ps with
  | [] => .ok []
  | (k, v) :: rest =>
    match kson_value_to_ast v tokens source with
    | .error msg => .error msg
    | .ok n =>
      match ksonPropsToAst rest tokens source with
      | .error msg => .error msg
      | .ok ns => .ok ((k, n) :: ns)
termination_by (sizeOf ps, 0)
decreasing_by
  all_goals first
  | (apply Prod.Lex.right; omega)
  | (apply Prod.Lex.left; simp; try omega)
  | (apply Prod.Lex.left; subst_vars; simp; try omega)

end

/-! ## The top-level wrapper `kson_to_toml_string` -/

/-- The comment map handed to `kson_to_toml_string`
(`{'leading': [...], 'inline': {...}, 'trailing': [...]}`). -/
structure CommentMap where
  leading : List String
  inline : CDict
  trailing : List String

/-- `'list_item' if (has_arrays or has_tables) else 'item'` in the
heterogeneous-array branch. -/
def hetKeyName (es : List TomlNode) : String :=
  if es.any isArrayN || es.any isTableN then "list_item" else "item"

/-- One `[[value]]` block of the heterogeneous-array branch
(`kson_to_toml_string` lines 825-846): a table element splices its
rendering; an array element containing tables becomes `[[value.key]]`
blocks; everything else becomes a `key_name = value` line.  Every block
ends with the blank separator line. -/
def hetElemBlock (key_name : String) (inline : CDict) (source : Option String)
    (e : TomlNode) : List String :=
  "[[value]]" ::
  (match e with
   | .table ps => [to_toml_table ps 0 "" inline source]
   | .array inner sl el =>
     if inner.any isTableN then
       inner.foldr
         (fun te acc =>
           (match te with
            | .table ps =>
              ["[[value." ++ key_name ++ "]]", to_toml_table ps 0 "" inline source]
            | _ => []) ++ acc)
         []
     else [key_name ++ " = " ++ to_toml_node (.array inner sl el) 0 inline source]
   | _ => [key_name ++ " = " ++ to_toml_node e 0 inline source])
  ++ [""]

/-- All lines of the heterogeneous-array branch. -/
def hetLines (es : List TomlNode) (inline : CDict) (source : Option String) :
    List String :=
  es.foldr (fun e acc => hetElemBlock (hetKeyName es) inline source e ++ acc) []

/-- The plain-array root branch (`kson_to_toml_string` lines 760-790):
decide whether leading comments render above `value = [` or inside the
brackets (as pseudo-comments keyed `-1`). -/
def rootPlainArray (es : List TomlNode) (leading : List String) (inline : CDict)
    (source : Option String) : List String :=
  let valueLine := fun (cms : CDict) => "value = " ++ to_toml_array es 0 cms source
  let has_nested_arrays := es.any isArrayN
  let inline_comment_count := inline.length
  if !leading.isEmpty && has_nested_arrays && !inline.isEmpty
      && inline_comment_count ≥ 2 then
    leading ++ [valueLine inline]
  else if !leading.isEmpty && leading.length ≥ 2 && !inline.isEmpty then
    let outer := leading.dropLast
    let inner := leading.drop (leading.length - 1)
    outer ++ [valueLine (cdictUpdate [(-1, inner)] inline)]
  else if !leading.isEmpty then
    let combined :=
      if !inline.isEmpty then cdictUpdate [(-1, leading)] inline
      else [((-1 : Int), leading)]
    [valueLine combined]
  else [valueLine inline]

/-- The root dispatch of `kson_to_toml_string` (lines 736-858), producing
`result_lines` before trailing comments are appended. -/
def rootLines (ast : TomlNode) (leading : List String) (inline : CDict)
    (source : Option String) : List String :=
  match ast with
  | .table ps => leading ++ [to_toml_table ps 0 "" inline source]
  | .array es _ _ =>
    if needs_array_of_tables_format es then
      let blocks := es.foldr
        (fun e acc => ["[[value]]", "item = " ++ to_toml_node e 0 [] none, ""] ++ acc)
        []
      let rl := leading ++ blocks
      if !rl.isEmpty && rl.getLast? = some "" then rl.dropLast else rl
    else if !(check_heterogeneous es) then
      rootPlainArray es leading inline source
    else
      leading ++ hetLines es inline source
  | .embed c t m he =>
    if pyTruthyOptStr t || pyTruthyOptStr m then
      let tag_value := if pyTruthyOptStr t then t.getD "" else m.getD ""
      let embed_table := [("embedTag", mkTomlString tag_value true),
                         ("embedContent", TomlNode.embed c t m he)]
      leading ++ ["[embedBlock]", to_toml_table embed_table 0 "" inline source]
    else if !leading.isEmpty then
      leading ++ ["value = " ++ TomlEmbed_to_toml c he]
    else
      ["embedContent = " ++ TomlEmbed_to_toml c he]
  | other => leading ++ ["value = " ++ to_toml_node other 0 inline source]

/-- `kson_to_toml_string`: build the AST, dispatch on the root shape,
append trailing comments, join, right-strip and terminate with a newline
(or return `''` for an empty line list). -/
def kson_to_toml_string (kv : KsonValue) (comment_map : Option CommentMap)
    (source : Option String) (tokens : Option Unit) : Except String String :=
  let cmap := comment_map.getD ⟨[], [], []⟩
  match kson_value_to_ast kv tokens source with
  | .error msg => .error msg
  | .ok ast =>
    let rl := rootLines ast cmap.leading cmap.inline source
    let rl2 := if !cmap.trailing.isEmpty then rl ++ [""] ++ cmap.trailing else rl
    .ok (if rl2.isEmpty then "" else pyRstrip (joinWith "\n" rl2) ++ "\n")

/-- `kson2toml.kson2toml` after a successful parse: it calls
`kson_to_toml_string(kson_value)` with no comment map, no source and no
tokens (defaults). -/
def kson2toml (kv : KsonValue) : Except String String :=
  kson_to_toml_string kv none none none

/-! ## C3: the root-context array classifier -/

def isStringN : TomlNode → Bool
  | .string _ _ => true
  | _ => false

def isNumberN : TomlNode → Bool
  | .integer _ _ => true
  | .float _ _ => true
  | _ => false

def isBooleanN : TomlNode → Bool
  | .boolean _ => true
  | _ => false

def isNullN : TomlNode → Bool
  | .null => true
  | _ => false

/-- The four primitive kinds the root-context classifier distinguishes. -/
inductive PrimKind where
  | stringKind
  | numberKind
  | booleanKind
  | nullKind
deriving DecidableEq, Fintype

/-- The primitive kind of an element (arrays, tables and embeds have none;
integers and floats share the `number` kind). -/
def primKindOf : TomlNode → Option PrimKind
  | .string _ _ => some .stringKind
  | .integer _ _ => some .numberKind
  | .float _ _ => some .numberKind
  | .boolean _ => some .booleanKind
  | .null => some .nullKind
  | _ => none

/-- "a non-string (number, boolean, null, or table)" from the claim. -/
def isNonStringKind : TomlNode → Bool
  | .integer _ _ => true
  | .float _ _ => true
  | .boolean _ => true
  | .null => true
  | .table _ => true
  | _ => false

/-- The root-context classification condition, written from the claim:
(a) some element is an array and some other element is a non-string
(number, boolean, null, or table), or (b) two or more distinct primitive
kinds among string/number/boolean/null occur among the elements. -/
def rootClassifierSpec (es : List TomlNode) : Prop :=
  (∃ i j : Fin es.length, i ≠ j ∧ isArrayN (es.get i) = true
      ∧ isNonStringKind (es.get j) = true)
  ∨ (∃ k1 k2 : PrimKind, k1 ≠ k2
      ∧ (∃ e ∈ es, primKindOf e = some k1) ∧ (∃ e ∈ es, primKindOf e = some k2))

theorem kindFlags_foldl (es : List TomlNode) : ∀ (f0 : KindFlags),
    es.foldl
      (fun f e =>
        match e with
        | .string _ _ => { f with has_string := true }
        | .integer _ _ => { f with has_number := true }
        | .float _ _ => { f with has_number := true }
        | .boolean _ => { f with has_boolean := true }
        | .null => { f with has_null := true }
        | .array _ _ _ => { f with has_array := true }
        | .table _ => { f with has_table := true }
        | .embed _ _ _ _ => f)
      f0 =
    ⟨f0.has_string || es.any isStringN, f0.has_number || es.any isNumberN,
     f0.has_boolean || es.any isBooleanN, f0.has_null || es.any isNullN,
     f0.has_array || es.any isArrayN, f0.has_table || es.any isTableN⟩ := by
  induction es with
  | nil => intro f0; simp
  | cons e rest ih =>
    intro f0
    cases e <;>
      simp [List.foldl_cons, ih, isStringN, isNumberN, isBooleanN, isNullN,
        isArrayN, isTableN, Bool.or_assoc, Bool.or_comm, Bool.or_left_comm]

theorem kindFlagsOf_eq (es : List TomlNode) :
    kindFlagsOf es =
    ⟨es.any isStringN, es.any isNumberN, es.any isBooleanN, es.any isNullN,
     es.any isArrayN, es.any isTableN⟩ := by
  have h := kindFlags_foldl es ⟨false, false, false, false, false, false⟩
  simpa [kindFlagsOf] using h

theorem primCount_pair_iff (o : PrimKind → Bool) :
    (2 ≤ (if o .stringKind then 1 else 0) + (if o .numberKind then 1 else 0)
      + (if o .booleanKind then 1 else 0) + (if o .nullKind then 1 else 0)) ↔
    ∃ k1 k2 : PrimKind, k1 ≠ k2 ∧ o k1 = true ∧ o k2 = true := by
  revert o; decide

theorem any_ext {f g : TomlNode → Bool} (es : List TomlNode) (h : ∀ e, f e = g e) :
    es.any f = es.any g := by
  induction es <;> simp_all

theorem needs_eq_formula (es : List TomlNode) :
    needs_array_of_tables_format es =
    ((es.any isArrayN
        && (es.any isNumberN || es.any isBooleanN || es.any isNullN
            || es.any isTableN))
      || decide (2 ≤ (if es.any isStringN then 1 else 0)
          + (if es.any isNumberN then 1 else 0)
          + (if es.any isBooleanN then 1 else 0)
          + (if es.any isNullN then 1 else 0))) := by
  unfold needs_array_of_tables_format
  by_cases hemp : es.isEmpty = true
  · rw [List.isEmpty_iff] at hemp; subst hemp; simp
  · rw [if_neg hemp, kindFlagsOf_eq]
    by_cases h1 : (es.any isArrayN
        && (es.any isNumberN || es.any isBooleanN || es.any isNullN
            || es.any isTableN)) = true
    · simp [h1]
    · rw [Bool.not_eq_true] at h1
      simp only [h1]
      by_cases h2 : 2 ≤ (if es.any isStringN then 1 else 0)
          + (if es.any isNumberN then 1 else 0)
          + (if es.any isBooleanN then 1 else 0)
          + (if es.any isNullN then 1 else 0)
      · simp [h2]
      · simp [h2]

theorem nonstring_any (es : List TomlNode) :
    (((es.any isNumberN = true ∨ es.any isBooleanN = true)
        ∨ es.any isNullN = true) ∨ es.any isTableN = true) ↔
      es.any isNonStringKind = true := by
  simp only [List.any_eq_true]
  constructor
  · rintro (((⟨b, hm, hp⟩ | ⟨b, hm, hp⟩) | ⟨b, hm, hp⟩) | ⟨b, hm, hp⟩) <;>
      exact ⟨b, hm, by cases b <;> simp_all [isNumberN, isBooleanN, isNullN,
        isTableN, isNonStringKind]⟩
  · rintro ⟨b, hm, hp⟩
    cases b with
    | integer v lit => exact Or.inl (Or.inl (Or.inl ⟨_, hm, by simp [isNumberN]⟩))
    | float v lit => exact Or.inl (Or.inl (Or.inl ⟨_, hm, by simp [isNumberN]⟩))
    | boolean v => exact Or.inl (Or.inl (Or.inr ⟨_, hm, by simp [isBooleanN]⟩))
    | null => exact Or.inl (Or.inr ⟨_, hm, by simp [isNullN]⟩)
    | table ps => exact Or.inr ⟨_, hm, by simp [isTableN]⟩
    | string v am => simp [isNonStringKind] at hp
    | array a b c => simp [isNonStringKind] at hp
    | embed a b c d => simp [isNonStringKind] at hp

theorem arr_nonstring_pair_iff (es : List TomlNode) :
    (es.any isArrayN = true ∧ es.any isNonStringKind = true) ↔
    (∃ i j : Fin es.length, i ≠ j ∧ isArrayN (es.get i) = true
      ∧ isNonStringKind (es.get j) = true) := by
  constructor
  · rintro ⟨ha, hb⟩
    rw [List.any_eq_true] at ha hb
    obtain ⟨a, haMem, haP⟩ := ha
    obtain ⟨b, hbMem, hbP⟩ := hb
    obtain ⟨i, hi⟩ := List.mem_iff_get.mp haMem
    obtain ⟨j, hj⟩ := List.mem_iff_get.mp hbMem
    refine ⟨i, j, ?_, by rw [hi]; exact haP, by rw [hj]; exact hbP⟩
    intro hij
    rw [hij, hj] at hi
    subst hi
    cases b <;> simp_all [isArrayN, isNonStringKind]
  · rintro ⟨i, j, _, hi, hj⟩
    exact ⟨List.any_eq_true.mpr ⟨es.get i, List.get_mem es i.1 i.2, hi⟩,
           List.any_eq_true.mpr ⟨es.get j, List.get_mem es j.1 j.2, hj⟩⟩

theorem count_kinds_iff (es : List TomlNode) :
    (2 ≤ (if es.any isStringN then 1 else 0) + (if es.any isNumberN then 1 else 0)
      + (if es.any isBooleanN then 1 else 0) + (if es.any isNullN then 1 else 0)) ↔
    (∃ k1 k2 : PrimKind, k1 ≠ k2
      ∧ (∃ e ∈ es, primKindOf e = some k1) ∧ (∃ e ∈ es, primKindOf e = some k2)) := by
  have e1 : es.any (fun e => decide (primKindOf e = some PrimKind.stringKind))
      = es.any isStringN :=
    any_ext es (fun e => by cases e <;> simp [primKindOf, isStringN])
  have e2 : es.any (fun e => decide (primKindOf e = some PrimKind.numberKind))
      = es.any isNumberN :=
    any_ext es (fun e => by cases e <;> simp [primKindOf, isNumberN])
  have e3 : es.any (fun e => decide (primKindOf e = some PrimKind.booleanKind))
      = es.any isBooleanN :=
    any_ext es (fun e => by cases e <;> simp [primKindOf, isBooleanN])
  have e4 : es.any (fun e => decide (primKindOf e = some PrimKind.nullKind))
      = es.any isNullN :=
    any_ext es (fun e => by cases e <;> simp [primKindOf, isNullN])
  have hinst := primCount_pair_iff
    (fun k => es.any (fun e => decide (primKindOf e = some k)))
  simp only [e1, e2, e3, e4] at hinst
  rw [hinst]
  constructor
  · rintro ⟨k1, k2, hne, h1, h2⟩
    rw [List.any_eq_true] at h1 h2
    refine ⟨k1, k2, hne, ?_, ?_⟩
    · obtain ⟨e, hm, hp⟩ := h1; exact ⟨e, hm, by simpa using hp⟩
    · obtain ⟨e, hm, hp⟩ := h2; exact ⟨e, hm, by simpa using hp⟩
  · rintro ⟨k1, k2, hne, ⟨a, ham, hap⟩, ⟨b, hbm, hbp⟩⟩
    exact ⟨k1, k2, hne, List.any_eq_true.mpr ⟨a, ham, by simpa using hap⟩,
           List.any_eq_true.mpr ⟨b, hbm, by simpa using hbp⟩⟩

/-- C3: for every array node (used as the root converted value), the
root-context classifier `needs_array_of_tables_format` returns true iff
either (a) some element is an array and some other element is a non-string
(number, boolean, null, or table), or (b) two or more distinct primitive
kinds among string/number/boolean/null occur among the elements; in
particular a single primitive kind, an array mixed only with strings, and
the empty array all yield false. -/
theorem c3_root_array_classifier (es : List TomlNode) :
    needs_array_of_tables_format es = true ↔ rootClassifierSpec es := by
  rw [needs_eq_formula es]
  simp only [Bool.or_eq_true, Bool.and_eq_true, decide_eq_true_eq]
  unfold rootClassifierSpec
  constructor
  · rintro (⟨ha, hb⟩ | hc)
    · exact Or.inl ((arr_nonstring_pair_iff es).mp ⟨ha, (nonstring_any es).mp hb⟩)
    · exact Or.inr ((count_kinds_iff es).mp hc)
  · rintro (hpair | hkinds)
    · obtain ⟨ha, hb⟩ := (arr_nonstring_pair_iff es).mpr hpair
      exact Or.inl ⟨ha, (nonstring_any es).mpr hb⟩
    · exact Or.inr ((count_kinds_iff es).mpr hkinds)

/-! ## C4: the string rendering decision -/

/-- "every backslash doubled", character by character. -/
def doubleBackslashesSpec (l : List Char) : List Char :=
  l.foldr (fun c acc => (if c = '\\' then ['\\', '\\'] else [c]) ++ acc) []

/-- "double quotes escaped", character by character. -/
def escapeDquotesSpec (l : List Char) : List Char :=
  l.foldr (fun c acc => (if c = '"' then ['\\', '"'] else [c]) ++ acc) []

/-- "any remaining real newline replaced by the two-character sequence
backslash-n", character by character. -/
def escapeNewlinesSpec (l : List Char) : List Char :=
  l.foldr (fun c acc => (if c = '\n' then ['\\', 'n'] else [c]) ++ acc) []

/-- The ordered rendering decision of the claim: (1) triple-quote with the
content unchanged when multiline is allowed, a real newline or tab occurs,
and the trimmed value is non-empty; (2) otherwise single-quote with every
backslash doubled when the value has both a backslash and a double quote but
no single quote; (3) otherwise double-quote, doubling backslashes first,
then escaping double quotes, then replacing every remaining real newline. -/
def stringRenderSpec (value : String) (allow_multiline : Bool) : String :=
  if allow_multiline && (containsChar '\n' value || containsChar '\t' value)
      && !(pyStrip value).data.isEmpty then
    String.mk ('"' :: '"' :: '"' :: value.data ++ ['"', '"', '"'])
  else if containsChar '\\' value && containsChar '"' value
      && !containsChar '\x27' value then
    String.mk ('\x27' :: doubleBackslashesSpec value.data ++ ['\x27'])
  else
    String.mk ('"' ::
      escapeNewlinesSpec (escapeDquotesSpec (doubleBackslashesSpec value.data))
      ++ ['"'])

theorem replace1_eq_foldr (p : Char) (rep l : List Char) :
    replace1 p rep l = l.foldr (fun c acc => (if c = p then rep else [c]) ++ acc) [] := by
  induction l with
  | nil => simp [replace1]
  | cons a l ih => by_cases h : a = p <;> simp [replace1, h, ih]

theorem foldr_id_of_not_contains (p : Char) (rep l : List Char)
    (h : l.contains p = false) :
    l.foldr (fun c acc => (if c = p then rep else [c]) ++ acc) [] = l := by
  induction l with
  | nil => simp
  | cons a l ih =>
    simp only [List.contains_cons, Bool.or_eq_false_iff] at h
    have ha : ¬ a = p := by
      intro hx; subst hx; simp at h
    simp [ha, ih h.2]

theorem string_append_data (a b : String) : (a ++ b).data = a.data ++ b.data := rfl

/-- C4: `TomlString.to_toml` follows exactly the three-step ordered decision
stated by the claim (triple-quote / single-quote with doubled backslashes /
double-quote with backslashes doubled first, then quotes escaped, then
newlines escaped). -/
theorem c4_string_rendering (value : String) (allow_multiline : Bool) :
    TomlString_to_toml value allow_multiline = stringRenderSpec value allow_multiline := by
  unfold TomlString_to_toml stringRenderSpec
  by_cases h1 : (allow_multiline && (containsChar '\n' value || containsChar '\t' value)
      && !(pyStrip value).data.isEmpty) = true
  · simp only [h1, if_true]
    apply congrArg String.mk
    rfl
  · rw [Bool.not_eq_true] at h1
    simp only [h1, Bool.false_eq_true, if_false]
    by_cases h2 : (containsChar '\\' value && containsChar '"' value
        && !containsChar '\x27' value) = true
    · simp only [h2, if_true]
      simp only [doubleBackslashesSpec]
      rw [replace1_eq_foldr]
      rfl
    · rw [Bool.not_eq_true] at h2
      simp only [h2, Bool.false_eq_true, if_false]
      apply congrArg String.mk
      simp only [escapeNewlinesSpec, escapeDquotesSpec, doubleBackslashesSpec]
      rw [replace1_eq_foldr '\\', replace1_eq_foldr '"', replace1_eq_foldr '\n']
      by_cases h3 : (List.foldr (fun c acc => (if c = '"' then ['\\', '"'] else [c]) ++ acc) []
          (List.foldr (fun c acc => (if c = '\\' then ['\\', '\\'] else [c]) ++ acc) []
            value.data)).contains '\n' = true
      · rw [if_pos h3]
        simp
      · rw [Bool.not_eq_true] at h3
        rw [if_neg (by rw [h3]; simp), foldr_id_of_not_contains '\n' ['\\', 'n'] _ h3]
        simp

/-! ## C9: the `allow_multiline` mutation, as a post-state transformer

`TomlTable.to_toml` mutates exactly one thing: for a simple property named
`embedContent` whose value is a `TomlString`, it sets `allow_multiline`
to `False`, renders, and then sets it to `True` (not to its previous value:
`value.allow_multiline = True`).  Rendering recurses into nested tables
(directly, through arrays-of-tables, and through inline tables whose
property values are tables), so the post-state transformer follows the same
call graph as the renderer; every other render path leaves nodes intact. -/

mutual

/-- Post-state of a node after `node.to_toml(...)` dispatch. -/
def node_post (n : TomlNode) : TomlNode :=
  match n with
  | .table ps => .table (table_post ps)
  | .array es sl el => .array (array_render_post es) sl el
  | .string v am => .string v am
  | .integer v lit => .integer v lit
  | .float vs lit => .float vs lit
  | .boolean b => .boolean b
  | .null => .null
  | .embed c t m he => .embed c t m he
termination_by (sizeOf n, 2)
decreasing_by
  all_goals first
  | (apply Prod.Lex.right; omega)
  | (apply Prod.Lex.left; simp; try omega)
  | (apply Prod.Lex.left; subst_vars; simp; try omega)

/-- Post-state of an array's elements after `TomlArray.to_toml`: the
inline-table path renders table elements through `to_inline`, every other
path renders the elements through `to_toml`. -/
def array_render_post (es : List TomlNode) : List TomlNode :=
  if es.any isTableN then inline_elems_post es else nodes_post es
termination_by (sizeOf es, 1)
decreasing_by
  all_goals first
  | (apply Prod.Lex.right; omega)
  | (apply Prod.Lex.left; simp; try omega)
  | (apply Prod.Lex.left; subst_vars; simp; try omega)

/-- Elements rendered on the inline-table path (`to_inline` for tables). -/
def inline_elems_post (es : List TomlNode) : List TomlNode :=
  match es with
  | [] => []
  | .table ps :: rest => .table (inline_table_post ps) :: inline_elems_post rest
  | .string v am :: rest => node_post (.string v am) :: inline_elems_post rest
  | .integer v lit :: rest => node_post (.integer v lit) :: inline_elems_post rest
  | .float vs lit :: rest => node_post (.float vs lit) :: inline_elems_post rest
  | .boolean b :: rest => node_post (.boolean b) :: inline_elems_post rest
  | .null :: rest => node_post .null :: inline_elems_post rest
  | .array a b c :: rest => node_post (.array a b c) :: inline_elems_post rest
  | .embed a b c d :: rest => node_post (.embed a b c d) :: inline_elems_post rest
termination_by (sizeOf es, 0)
decreasing_by
  all_goals first
  | (apply Prod.Lex.right; omega)
  | (apply Prod.Lex.left; simp; try omega)
  | (apply Prod.Lex.left; subst_vars; simp; try omega)

def nodes_post (es : List TomlNode) : List TomlNode :=
  match es with
  | [] => []
  | e :: rest => node_post e :: nodes_post rest
termination_by (sizeOf es, 0)
decreasing_by
  all_goals first
  | (apply Prod.Lex.right; omega)
  | (apply Prod.Lex.left; simp; try omega)
  | (apply Prod.Lex.left; subst_vars; simp; try omega)

/-- `to_inline` renders every property value through `value.to_toml(0)`
without any toggle of its own. -/
def inline_table_post (ps : List (String × TomlNode)) : List (String × TomlNode) :=
  match ps with
  | [] => []
  | (k, v) :: rest => (k, node_post v) :: inline_table_post rest
termination_by (sizeOf ps, 0)
decreasing_by
  all_goals first
  | (apply Prod.Lex.right; omega)
  | (apply Prod.Lex.left; simp; try omega)
  | (apply Prod.Lex.left; subst_vars; simp; try omega)

/-- Post-state of a table's properties after `TomlTable.to_toml`: the
`embedContent`-string flag is left `True`; simple arrays are rendered
through `to_toml`; arrays of tables render only their table elements;
nested tables recurse. -/
def table_post (ps : List (String × TomlNode)) : List (String × TomlNode) :=
  match ps with
  | [] => []
  | (k, TomlNode.string s am) :: rest =>
    (if k = "embedContent" then (k, TomlNode.string s true)
     else (k, TomlNode.string s am)) :: table_post rest
  | (k, TomlNode.array es sl el) :: rest =>
    (if es.any isTableN then (k, TomlNode.array (aot_elems_post es) sl el)
     else (k, TomlNode.array (array_render_post es) sl el)) :: table_post rest
  | (k, TomlNode.table inner) :: rest =>
    (k, TomlNode.table (table_post inner)) :: table_post rest
  | (k, TomlNode.integer v lit) :: rest => (k, TomlNode.integer v lit) :: table_post rest
  | (k, TomlNode.float vs lit) :: rest => (k, TomlNode.float vs lit) :: table_post rest
  | (k, TomlNode.boolean b) :: rest => (k, TomlNode.boolean b) :: table_post rest
  | (k, TomlNode.null) :: rest => (k, TomlNode.null) :: table_post rest
  | (k, TomlNode.embed a b c d) :: rest => (k, TomlNode.embed a b c d) :: table_post rest
termination_by (sizeOf ps, 0)
decreasing_by
  all_goals first
  | (apply Prod.Lex.right; omega)
  | (apply Prod.Lex.left; simp; try omega)
  | (apply Prod.Lex.left; subst_vars; simp; try omega)

/-- Elements of an array-of-tables property: only the table elements are
rendered (as `[[path]]` blocks); the rest are dropped unrendered. -/
def aot_elems_post (es : List TomlNode) : List TomlNode :=
  match es with
  | [] => []
  | .table ps :: rest => .table (table_post ps) :: aot_elems_post rest
  | .string v am :: rest => .string v am :: aot_elems_post rest
  | .integer v lit :: rest => .integer v lit :: aot_elems_post rest
  | .float vs lit :: rest => .float vs lit :: aot_elems_post rest
  | .boolean b :: rest => .boolean b :: aot_elems_post rest
  | .null :: rest => .null :: aot_elems_post rest
  | .array a b c :: rest => .array a b c :: aot_elems_post rest
  | .embed a b c d :: rest => .embed a b c d :: aot_elems_post rest
termination_by (sizeOf es, 0)
decreasing_by
  all_goals first
  | (apply Prod.Lex.right; omega)
  | (apply Prod.Lex.left; simp; try omega)
  | (apply Prod.Lex.left; subst_vars; simp; try omega)

end

mutual

/-- Every string node in the tree has `allow_multiline = true` — true of
every tree `kson_value_to_ast` builds. -/
def all_flags_true_node : TomlNode → Bool
  | .string _ am => am
  | .array es _ _ => all_flags_true_list es
  | .table ps => all_flags_true_props ps
  | _ => true

def all_flags_true_list : List TomlNode → Bool
  | [] => true
  | e :: rest => all_flags_true_node e && all_flags_true_list rest

def all_flags_true_props : List (String × TomlNode) → Bool
  | [] => true
  | (_, v) :: rest => all_flags_true_node v && all_flags_true_props rest

end

mutual

theorem node_post_id (n : TomlNode) (h : all_flags_true_node n = true) :
    node_post n = n := by
  cases n with
  | table ps =>
    rw [node_post]
    rw [table_post_id ps (by simpa [all_flags_true_node] using h)]
  | array es sl el =>
    rw [node_post]
    rw [array_render_post_id es (by simpa [all_flags_true_node] using h)]
  | string v am => rw [node_post]
  | integer v lit => rw [node_post]
  | float vs lit => rw [node_post]
  | boolean b => rw [node_post]
  | null => rw [node_post]
  | embed c t m he => rw [node_post]
termination_by (sizeOf n, 2)
decreasing_by
  all_goals first
  | (apply Prod.Lex.right; omega)
  | (apply Prod.Lex.left; simp; try omega)
  | (apply Prod.Lex.left; subst_vars; simp; try omega)

theorem array_render_post_id (es : List TomlNode) (h : all_flags_true_list es = true) :
    array_render_post es = es := by
  rw [array_render_post]
  by_cases ht : es.any isTableN = true
  · rw [if_pos ht, inline_elems_post_id es h]
  · rw [if_neg ht, nodes_post_id es h]
termination_by (sizeOf es, 1)
decreasing_by
  all_goals first
  | (apply Prod.Lex.right; omega)
  | (apply Prod.Lex.left; simp; try omega)
  | (apply Prod.Lex.left; subst_vars; simp; try omega)

theorem inline_elems_post_id (es : List TomlNode) (h : all_flags_true_list es = true) :
    inline_elems_post es = es := by
  match es with
  | [] => rw [inline_elems_post]
  | .table ps :: rest =>
    rw [inline_elems_post]
    rw [all_flags_true_list] at h
    rw [inline_table_post_id ps (by simp_all [all_flags_true_node]),
        inline_elems_post_id rest (by simp_all)]
  | .string v am :: rest =>
    rw [inline_elems_post, all_flags_true_list] at *
    rw [node_post_id _ (by simp_all), inline_elems_post_id rest (by simp_all)]
  | .integer v lit :: rest =>
    rw [inline_elems_post, all_flags_true_list] at *
    rw [node_post_id _ (by simp_all), inline_elems_post_id rest (by simp_all)]
  | .float vs lit :: rest =>
    rw [inline_elems_post, all_flags_true_list] at *
    rw [node_post_id _ (by simp_all), inline_elems_post_id rest (by simp_all)]
  | .boolean b :: rest =>
    rw [inline_elems_post, all_flags_true_list] at *
    rw [node_post_id _ (by simp_all), inline_elems_post_id rest (by simp_all)]
  | .null :: rest =>
    rw [inline_elems_post, all_flags_true_list] at *
    rw [node_post_id _ (by simp_all), inline_elems_post_id rest (by simp_all)]
  | .array a b c :: rest =>
    rw [inline_elems_post, all_flags_true_list] at *
    rw [node_post_id _ (by simp_all), inline_elems_post_id rest (by simp_all)]
  | .embed a b c d :: rest =>
    rw [inline_elems_post, all_flags_true_list] at *
    rw [node_post_id _ (by simp_all), inline_elems_post_id rest (by simp_all)]
termination_by (sizeOf es, 0)
decreasing_by
  all_goals first
  | (apply Prod.Lex.right; omega)
  | (apply Prod.Lex.left; simp; try omega)
  | (apply Prod.Lex.left; subst_vars; simp; try omega)

theorem nodes_post_id (es : List TomlNode) (h : all_flags_true_list es = true) :
    nodes_post es = es := by
  match es with
  | [] => rw [nodes_post]
  | e :: rest =>
    rw [nodes_post, all_flags_true_list] at *
    rw [node_post_id e (by simp_all), nodes_post_id rest (by simp_all)]
termination_by (sizeOf es, 0)
decreasing_by
  all_goals first
  | (apply Prod.Lex.right; omega)
  | (apply Prod.Lex.left; simp; try omega)
  | (apply Prod.Lex.left; subst_vars; simp; try omega)

theorem inline_table_post_id (ps : List (String × TomlNode))
    (h : all_flags_true_props ps = true) : inline_table_post ps = ps := by
  match ps with
  | [] => rw [inline_table_post]
  | (k, v) :: rest =>
    rw [inline_table_post, all_flags_true_props] at *
    rw [node_post_id v (by simp_all), inline_table_post_id rest (by simp_all)]
termination_by (sizeOf ps, 0)
decreasing_by
  all_goals first
  | (apply Prod.Lex.right; omega)
  | (apply Prod.Lex.left; simp; try omega)
  | (apply Prod.Lex.left; subst_vars; simp; try omega)

theorem table_post_id (ps : List (String × TomlNode))
    (h : all_flags_true_props ps = true) : table_post ps = ps := by
  match ps with
  | [] => rw [table_post]
  | (k, TomlNode.string s am) :: rest =>
    rw [table_post]
    rw [all_flags_true_props] at h
    have ham : am = true := by simp_all [all_flags_true_node]
    subst ham
    rw [table_post_id rest (by simp_all)]
    by_cases hk : k = "embedContent" <;> simp [hk]
  | (k, TomlNode.array es sl el) :: rest =>
    rw [table_post]
    rw [all_flags_true_props] at h
    have hes : all_flags_true_list es = true := by simp_all [all_flags_true_node]
    rw [aot_elems_post_id es hes, array_render_post_id es hes,
        table_post_id rest (by simp_all)]
    by_cases ht : es.any isTableN = true <;> simp [ht]
  | (k, TomlNode.table inner) :: rest =>
    rw [table_post]
    rw [all_flags_true_props] at h
    rw [table_post_id inner (by simp_all [all_flags_true_node]),
        table_post_id rest (by simp_all)]
  | (k, TomlNode.integer v lit) :: rest =>
    rw [table_post, all_flags_true_props] at *
    rw [table_post_id rest (by simp_all)]
  | (k, TomlNode.float vs lit) :: rest =>
    rw [table_post, all_flags_true_props] at *
    rw [table_post_id rest (by simp_all)]
  | (k, TomlNode.boolean b) :: rest =>
    rw [table_post, all_flags_true_props] at *
    rw [table_post_id rest (by simp_all)]
  | (k, TomlNode.null) :: rest =>
    rw [table_post, all_flags_true_props] at *
    rw [table_post_id rest (by simp_all)]
  | (k, TomlNode.embed a b c d) :: rest =>
    rw [table_post, all_flags_true_props] at *
    rw [table_post_id rest (by simp_all)]
termination_by (sizeOf ps, 0)
decreasing_by
  all_goals first
  | (apply Prod.Lex.right; omega)
  | (apply Prod.Lex.left; simp; try omega)
  | (apply Prod.Lex.left; subst_vars; simp; try omega)

theorem aot_elems_post_id (es : List TomlNode) (h : all_flags_true_list es = true) :
    aot_elems_post es = es := by
  match es with
  | [] => rw [aot_elems_post]
  | .table ps :: rest =>
    rw [aot_elems_post]
    rw [all_flags_true_list] at h
    rw [table_post_id ps (by simp_all [all_flags_true_node]),
        aot_elems_post_id rest (by simp_all)]
  | .string v am :: rest =>
    rw [aot_elems_post, all_flags_true_list] at *
    rw [aot_elems_post_id rest (by simp_all)]
  | .integer v lit :: rest =>
    rw [aot_elems_post, all_flags_true_list] at *
    rw [aot_elems_post_id rest (by simp_all)]
  | .float vs lit :: rest =>
    rw [aot_elems_post, all_flags_true_list] at *
    rw [aot_elems_post_id rest (by simp_all)]
  | .boolean b :: rest =>
    rw [aot_elems_post, all_flags_true_list] at *
    rw [aot_elems_post_id rest (by simp_all)]
  | .null :: rest =>
    rw [aot_elems_post, all_flags_true_list] at *
    rw [aot_elems_post_id rest (by simp_all)]
  | .array a b c :: rest =>
    rw [aot_elems_post, all_flags_true_list] at *
    rw [aot_elems_post_id rest (by simp_all)]
  | .embed a b c d :: rest =>
    rw [aot_elems_post, all_flags_true_list] at *
    rw [aot_elems_post_id rest (by simp_all)]
termination_by (sizeOf es, 0)
decreasing_by
  all_goals first
  | (apply Prod.Lex.right; omega)
  | (apply Prod.Lex.left; simp; try omega)
  | (apply Prod.Lex.left; subst_vars; simp; try omega)

end

/-- C9 counterexample: the claim says that after the table's rendering
completes the `allow_multiline` flag holds its original value; but the
source restores it with `value.allow_multiline = True` unconditionally, so
an `embedContent` string whose flag was `false` ends up with flag `true`,
not its original value. -/
theorem c9_flag_restore_counterexample :
    table_post [("embedContent", TomlNode.string "x" false)]
      ≠ [("embedContent", TomlNode.string "x" false)] := by
  simp [table_post]

/-- C9 (amended): rendering a table whose `embedContent` property holds a
plain String node renders that property with multiline forced off, and
afterwards leaves the flag `true` — which equals its original value
whenever the flag was `true` before rendering (as it is for every node the
node builder constructs); under that condition no field of any output node
is changed by rendering. -/
theorem c9_flag_restore_amended :
    (∀ props : List (String × TomlNode), all_flags_true_props props = true →
        table_post props = props)
    ∧ (∀ (s : String) (am : Bool) (pc : String → List String) (indent : Nat)
        (path : String) (source : Option String) (acc : List String),
        simpleLoop [("embedContent", TomlNode.string s am)] pc indent path source acc
          = acc ++ pc "embedContent"
            ++ ["embedContent = " ++ TomlString_to_toml s false]) := by
  constructor
  · exact fun props h => table_post_id props h
  · intro s am pc indent path source acc
    simp [simpleLoop, quoteKey, containsChar]

/-- C9 witness: the amended theorem applied at a concrete table. -/
theorem c9_flag_restore_witness :
    table_post [("embedContent", TomlNode.string "x" true)]
      = [("embedContent", TomlNode.string "x" true)] :=
  c9_flag_restore_amended.1 [("embedContent", TomlNode.string "x" true)]
    (by simp [all_flags_true_props, all_flags_true_node])

/-! ## C10: no literal text survives the public interface -/

mutual

/-- Every integer/float node in the tree carries no recovered literal. -/
def literals_none_node : TomlNode → Bool
  | .integer _ lit => lit.isNone
  | .float _ lit => lit.isNone
  | .array es _ _ => literals_none_list es
  | .table ps => literals_none_props ps
  | _ => true

def literals_none_list : List TomlNode → Bool
  | [] => true
  | e :: rest => literals_none_node e && literals_none_list rest

def literals_none_props : List (String × TomlNode) → Bool
  | [] => true
  | (_, v) :: rest => literals_none_node v && literals_none_props rest

end

mutual

theorem ast_literals_none (kv : KsonValue) (t : TomlNode)
    (h : kson_value_to_ast kv none none = .ok t) : literals_none_node t = true := by
  cases kv with
  | string v s e =>
    simp only [kson_value_to_ast, Except.ok.injEq] at h
    rw [← h]; simp [mkTomlString, literals_none_node]
  | integer v s e =>
    simp only [kson_value_to_ast, extract_literal_text, Except.ok.injEq] at h
    rw [← h]; simp [literals_none_node]
  | decimal r s e =>
    simp only [kson_value_to_ast, extract_literal_text, Except.ok.injEq] at h
    rw [← h]; simp [literals_none_node]
  | boolean b s e =>
    simp only [kson_value_to_ast, Except.ok.injEq] at h
    rw [← h]; simp [literals_none_node]
  | null s e =>
    simp only [kson_value_to_ast, Except.ok.injEq] at h
    rw [← h]; simp [literals_none_node]
  | array es s e =>
    rw [kson_value_to_ast] at h
    cases hts : ksonListToAst es none none with
    | error msg => rw [hts] at h; exact absurd h (by simp)
    | ok elems =>
      rw [hts] at h
      simp only [Except.ok.injEq] at h
      rw [← h]
      simpa [literals_none_node] using ast_literals_none_list es elems hts
  | object ps s e =>
    rw [kson_value_to_ast] at h
    cases hts : ksonPropsToAst ps none none with
    | error msg => rw [hts] at h; exact absurd h (by simp)
    | ok props =>
      rw [hts] at h
      simp only [Except.ok.injEq] at h
      rw [← h]
      simpa [literals_none_node] using ast_literals_none_props ps props hts
  | embed c tg m s e =>
    simp only [kson_value_to_ast, Except.ok.injEq] at h
    rw [← h]; simp [literals_none_node]
  | unknown tag => simp [kson_value_to_ast] at h
termination_by (sizeOf kv, 1)
decreasing_by
  all_goals first
  | (apply Prod.Lex.right; omega)
  | (apply Prod.Lex.left; simp; try omega)
  | (apply Prod.Lex.left; subst_vars; simp; try omega)

theorem ast_literals_none_list (es : List KsonValue) (ts : List TomlNode)
    (h : ksonListToAst es none none = .ok ts) : literals_none_list ts = true := by
  match es with
  | [] =>
    simp only [ksonListToAst, Except.ok.injEq] at h
    rw [← h]; simp [literals_none_list]
  | e :: rest =>
    rw [ksonListToAst] at h
    cases h1 : kson_value_to_ast e none none with
    | error m => rw [h1] at h; exact absurd h (by simp)
    | ok n =>
      rw [h1] at h
      cases h2 : ksonListToAst rest none none with
      | error m => rw [h2] at h; exact absurd h (by simp)
      | ok ns =>
        rw [h2] at h
        simp only [Except.ok.injEq] at h
        rw [← h]
        simp only [literals_none_list, Bool.and_eq_true]
        exact ⟨ast_literals_none e n h1, ast_literals_none_list rest ns h2⟩
termination_by (sizeOf es, 0)
decreasing_by
  all_goals first
  | (apply Prod.Lex.right; omega)
  | (apply Prod.Lex.left; simp; try omega)
  | (apply Prod.Lex.left; subst_vars; simp; try omega)

theorem ast_literals_none_props (ps : List (String × KsonValue))
    (ts : List (String × TomlNode))
    (h : ksonPropsToAst ps none none = .ok ts) : literals_none_props ts = true := by
  match ps with
  | [] =>
    simp only [ksonPropsToAst, Except.ok.injEq] at h
    rw [← h]; simp [literals_none_props]
  | (k, v) :: rest =>
    rw [ksonPropsToAst] at h
    cases h1 : kson_value_to_ast v none none with
    | error m => rw [h1] at h; exact absurd h (by simp)
    | ok n =>
      rw [h1] at h
      cases h2 : ksonPropsToAst rest none none with
      | error m => rw [h2] at h; exact absurd h (by simp)
      | ok ns =>
        rw [h2] at h
        simp only [Except.ok.injEq] at h
        rw [← h]
        simp only [literals_none_props, Bool.and_eq_true]
        exact ⟨ast_literals_none v n h1, ast_literals_none_props rest ns h2⟩
termination_by (sizeOf ps, 0)
decreasing_by
  all_goals first
  | (apply Prod.Lex.right; omega)
  | (apply Prod.Lex.left; simp; try omega)
  | (apply Prod.Lex.left; subst_vars; simp; try omega)

end

/-- C10: through the public entry point (`kson2toml` calls
`kson_to_toml_string(kson_value)` with neither tokens nor source, so the
node builder runs with `tokens = None, source = None`), literal extraction
always yields no literal — every numeric node of the built AST has
`literal = None` — and such nodes render by canonical textual conversion
(`str(value)`), so source formatting such as exponent notation is not
preserved. -/
theorem c10_no_literal_through_public_api :
    (∀ (kv : KsonValue) (t : TomlNode),
        kson_value_to_ast kv none none = .ok t → literals_none_node t = true)
    ∧ (∀ (v : Int) (indent : Nat) (cm : CDict) (source : Option String),
        to_toml_node (TomlNode.integer v none) indent cm source = intCanonical v)
    ∧ (∀ (vs : String) (indent : Nat) (cm : CDict) (source : Option String),
        to_toml_node (TomlNode.float vs none) indent cm source = vs) := by
  refine ⟨fun kv t h => ast_literals_none kv t h, ?_, ?_⟩
  · intro v indent cm source
    rw [to_toml_node]
    simp [TomlInteger_to_toml]
  · intro vs indent cm source
    rw [to_toml_node]
    simp [TomlFloat_to_toml]

/-- C10 witness: the theorem applied to a concrete integer value. -/
theorem c10_no_literal_witness :
    literals_none_node (TomlNode.integer 5 none) = true :=
  c10_no_literal_through_public_api.1 (KsonValue.integer 5 ⟨0, 0⟩ ⟨0, 0⟩)
    (TomlNode.integer 5 none) (by simp [kson_value_to_ast, extract_literal_text])

/-! ## C8: totality over the eight recognized kinds -/

mutual

/-- The tree is built from the eight recognized node kinds only
(no `unknown` tag anywhere). -/
def kson_wf : KsonValue → Bool
  | .unknown _ => false
  | .array es _ _ => kson_wf_list es
  | .object ps _ _ => kson_wf_props ps
  | _ => true

def kson_wf_list : List KsonValue → Bool
  | [] => true
  | e :: rest => kson_wf e && kson_wf_list rest

def kson_wf_props : List (String × KsonValue) → Bool
  | [] => true
  | (_, v) :: rest => kson_wf v && kson_wf_props rest

end

mutual

theorem ast_ok_of_wf (kv : KsonValue) (tokens : Option Unit) (source : Option String)
    (h : kson_wf kv = true) : ∃ t, kson_value_to_ast kv tokens source = .ok t := by
  cases kv with
  | string v s e => exact ⟨_, by rw [kson_value_to_ast]⟩
  | integer v s e => exact ⟨_, by rw [kson_value_to_ast]⟩
  | decimal r s e => exact ⟨_, by rw [kson_value_to_ast]⟩
  | boolean b s e => exact ⟨_, by rw [kson_value_to_ast]⟩
  | null s e => exact ⟨_, by rw [kson_value_to_ast]⟩
  | array es s e =>
    obtain ⟨ts, hts⟩ := ast_ok_of_wf_list es tokens source (by simpa [kson_wf] using h)
    exact ⟨_, by rw [kson_value_to_ast, hts]⟩
  | object ps s e =>
    obtain ⟨ts, hts⟩ := ast_ok_of_wf_props ps tokens source (by simpa [kson_wf] using h)
    exact ⟨_, by rw [kson_value_to_ast, hts]⟩
  | embed c tg m s e => exact ⟨_, by rw [kson_value_to_ast]⟩
  | unknown tag => simp [kson_wf] at h
termination_by (sizeOf kv, 1)
decreasing_by
  all_goals first
  | (apply Prod.Lex.right; omega)
  | (apply Prod.Lex.left; simp; try omega)
  | (apply Prod.Lex.left; subst_vars; simp; try omega)

theorem ast_ok_of_wf_list (es : List KsonValue) (tokens : Option Unit)
    (source : Option String) (h : kson_wf_list es = true) :
    ∃ ts, ksonListToAst es tokens source = .ok ts := by
  match es with
  | [] => exact ⟨_, by rw [ksonListToAst]⟩
  | e :: rest =>
    rw [kson_wf_list, Bool.and_eq_true] at h
    obtain ⟨n, hn⟩ := ast_ok_of_wf e tokens source h.1
    obtain ⟨ns, hns⟩ := ast_ok_of_wf_list rest tokens source h.2
    exact ⟨_, by rw [ksonListToAst, hn, hns]⟩
termination_by (sizeOf es, 0)
decreasing_by
  all_goals first
  | (apply Prod.Lex.right; omega)
  | (apply Prod.Lex.left; simp; try omega)
  | (apply Prod.Lex.left; subst_vars; simp; try omega)

theorem ast_ok_of_wf_props (ps : List (String × KsonValue)) (tokens : Option Unit)
    (source : Option String) (h : kson_wf_props ps = true) :
    ∃ ts, ksonPropsToAst ps tokens source = .ok ts := by
  match ps with
  | [] => exact ⟨_, by rw [ksonPropsToAst]⟩
  | (k, v) :: rest =>
    rw [kson_wf_props, Bool.and_eq_true] at h
    obtain ⟨n, hn⟩ := ast_ok_of_wf v tokens source h.1
    obtain ⟨ns, hns⟩ := ast_ok_of_wf_props rest tokens source h.2
    exact ⟨_, by rw [ksonPropsToAst, hn, hns]⟩
termination_by (sizeOf ps, 0)
decreasing_by
  all_goals first
  | (apply Prod.Lex.right; omega)
  | (apply Prod.Lex.left; simp; try omega)
  | (apply Prod.Lex.left; subst_vars; simp; try omega)

end

/-- C8: for every value tree built from the eight recognized node kinds and
every comment map, source text and token list, the full conversion is total:
`kson_to_toml_string` produces some output string (the only failure path,
the unsupported-kind error, is unreachable), and all rendering functions
below it are total Lean functions. -/
theorem c8_rendering_total (kv : KsonValue) (comment_map : Option CommentMap)
    (source : Option String) (tokens : Option Unit) (h : kson_wf kv = true) :
    ∃ out, kson_to_toml_string kv comment_map source tokens = .ok out := by
  obtain ⟨t, ht⟩ := ast_ok_of_wf kv tokens source h
  rw [kson_to_toml_string, ht]
  exact ⟨_, rfl⟩

/-- C8 witness: the totality theorem applied at a concrete tree. -/
theorem c8_rendering_total_witness :
    ∃ out, kson_to_toml_string (KsonValue.boolean true ⟨0, 0⟩ ⟨0, 0⟩) none none none
      = .ok out :=
  c8_rendering_total (KsonValue.boolean true ⟨0, 0⟩ ⟨0, 0⟩) none none none
    (by simp [kson_wf])

/-! ## C5: the concrete `[true, false, null]` scenario -/

/-- C5: converting the list `[true, false, null]` (a three-element value
tree of two booleans and a null) produces exactly three `[[value]]` blocks
with `item = true`, `item = false`, `item = "null"` in that order, each
pair of consecutive blocks separated by exactly one blank line. -/
theorem c5_bool_null_list_blocks :
    kson_to_toml_string
      (KsonValue.array
        [.boolean true ⟨0, 1⟩ ⟨0, 5⟩, .boolean false ⟨0, 7⟩ ⟨0, 12⟩,
         .null ⟨0, 14⟩ ⟨0, 18⟩] ⟨0, 0⟩ ⟨0, 19⟩)
      none none none
    = .ok "[[value]]\nitem = true\n\n[[value]]\nitem = false\n\n[[value]]\nitem = \"null\"\n" := by
  simp [kson_to_toml_string, kson_value_to_ast, ksonListToAst, rootLines,
    needs_array_of_tables_format, kindFlagsOf, to_toml_node, TomlBoolean_to_toml,
    TomlNull_to_toml, joinWith, joinWithL, pyRstrip, pyRstripL, isPySpace,
    isTableN, isArrayN]

/-! ## C1: the comment count invariant through the public entry point -/

/-- A comment line of a text: a line whose stripped content starts with the
comment marker `#` (the spec's notion of a comment line, §4.6). -/
def countCommentLines (s : String) : Nat :=
  ((pySplitLines s).filter (fun l => strStartsWith (pyStrip l) "#")).length

/-- The raw source of the repository test
`TestComment.testSourceWithComment`, reduced to its two lines: one comment
line and one bare string value. -/
def commentedStringSource : String := "# this is a comment\nstring"

/-- Modelled from the spec: the external KSON parser (out of scope; spec §1
and §2 treat it as a black box that supplies the value tree, and §4.6 states
comments are extracted from the raw text independently of the value tree).
For `commentedStringSource` it yields the String value `"string"`, whose
span is the word on the second line; the comment line does not enter the
value tree. -/
def parsedCommentedStringSource : KsonValue :=
  KsonValue.string "string" ⟨1, 0⟩ ⟨1, 6⟩

/-- C1 (the code violates the claim): the source has one comment line, but
the public conversion `kson2toml` calls `kson_to_toml_string` without any
comment map, so its output has zero comment lines — the repository's own
test mock `TestComment.testSourceWithComment` expects the comment to be
preserved. -/
theorem c1_comment_lines_dropped :
    countCommentLines commentedStringSource = 1
    ∧ kson2toml parsedCommentedStringSource = .ok "value = \"string\"\n"
    ∧ countCommentLines "value = \"string\"\n" = 0 := by
  refine ⟨by decide, ?_, by decide⟩
  simp [kson2toml, kson_to_toml_string, kson_value_to_ast, parsedCommentedStringSource,
    mkTomlString, rootLines, to_toml_node, TomlString_to_toml, containsChar,
    pyStrip, pyStripL, pyLstripL, pyRstripL, isPySpace, replace1, replace2,
    joinWith, joinWithL, pyRstrip]

/-! ## C2: the trailing-newline contract -/

/-- C2 counterexample: for the empty-table root with no comments the claim
demands the empty string, but the conversion returns a single newline
(`result_lines` holds the empty rendering of the empty table, so the list
is non-empty and the `''` branch is never taken). -/
theorem c2_empty_table_counterexample :
    kson_to_toml_string (KsonValue.object [] ⟨0, 0⟩ ⟨0, 1⟩) none none none = .ok "\n"
    ∧ "\n" ≠ "" := by
  refine ⟨?_, by decide⟩
  simp [kson_to_toml_string, kson_value_to_ast, ksonPropsToAst, rootLines,
    to_toml_table, partitionProps, simpleLoop, aotLoop, ntLoop, joinWith,
    joinWithL, pyRstrip, pyRstripL, isPySpace]

/-! ## C6: the `list_item`/`item` key selection -/

/-- C6 counterexample: for the root `[[1], true]` the claim requires the
non-table element `true` to be emitted under key `list_item` (a sibling is
a nested array), but this input takes the `needs_array_of_tables_format`
branch, which always uses `item`; `list_item` does not occur in the output
at all. -/
theorem c6_item_key_counterexample :
    kson_to_toml_string
      (KsonValue.array
        [.array [.integer 1 ⟨0, 2⟩ ⟨0, 3⟩] ⟨0, 1⟩ ⟨0, 4⟩, .boolean true ⟨0, 6⟩ ⟨0, 10⟩]
        ⟨0, 0⟩ ⟨0, 11⟩)
      none none none
    = .ok "[[value]]\nitem = [1]\n\n[[value]]\nitem = true\n"
    ∧ containsSub "list_item" "[[value]]\nitem = [1]\n\n[[value]]\nitem = true\n" = false
    ∧ isTableN (TomlNode.boolean true) = false
    ∧ isArrayN (TomlNode.array [TomlNode.integer 1 none] (some 0) (some 0)) = true := by
  refine ⟨?_, by decide, by decide, by decide⟩
  simp [kson_to_toml_string, kson_value_to_ast, ksonListToAst,
    extract_literal_text, rootLines, needs_array_of_tables_format, kindFlagsOf,
    to_toml_node, to_toml_array, renderElemsFlat, TomlInteger_to_toml,
    intCanonical, natDigits, TomlBoolean_to_toml, joinWith, joinWithL, pyRstrip,
    pyRstripL, isPySpace, isTableN, isArrayN]

/-- "terminated by exactly one trailing newline": the text is non-empty,
its last character is a newline, and the character before it (if any) is
not a newline. -/
def endsWithExactlyOneNewline (s : String) : Prop :=
  s.data ≠ [] ∧ s.data.getLast? = some '\n' ∧ (s.data.dropLast).getLast? ≠ some '\n'

theorem head_dropWhile_not (p : Char → Bool) (l : List Char) (c : Char)
    (h : (l.dropWhile p).head? = some c) : p c = false := by
  induction l with
  | nil => simp [List.dropWhile] at h
  | cons a rest ih =>
    rw [List.dropWhile_cons] at h
    by_cases hp : p a = true
    · rw [if_pos hp] at h; exact ih h
    · rw [if_neg hp] at h
      simp only [List.head?_cons, Option.some.injEq] at h
      rw [← h]
      simpa using hp

theorem pyRstripL_getLast_not_space (l : List Char) (c : Char)
    (h : (pyRstripL l).getLast? = some c) : isPySpace c = false := by
  unfold pyRstripL at h
  rw [List.getLast?_reverse] at h
  exact head_dropWhile_not isPySpace l.reverse c h

theorem rstrip_append_newline (s : String) :
    endsWithExactlyOneNewline (pyRstrip s ++ "\n") := by
  have hdata : (pyRstrip s ++ "\n").data = pyRstripL s.data ++ ['\n'] := rfl
  refine ⟨by simp [hdata], ?_, ?_⟩
  · rw [hdata, List.getLast?_concat]
  · rw [hdata, List.dropLast_concat]
    intro hx
    have := pyRstripL_getLast_not_space s.data '\n' hx
    simp [isPySpace] at this

theorem needs_empty_false : needs_array_of_tables_format [] = false := by
  simp [needs_array_of_tables_format]

theorem check_het_empty_false : check_heterogeneous [] = false := by
  simp [check_heterogeneous]

theorem rootPlainArray_ne_nil (es : List TomlNode) (leading : List String)
    (inline : CDict) (source : Option String) :
    rootPlainArray es leading inline source ≠ [] := by
  rw [rootPlainArray]
  split
  · simp
  · split
    · simp
    · split <;> simp

theorem hetLines_ne_nil (es : List TomlNode) (inline : CDict)
    (source : Option String) (h : es ≠ []) : hetLines es inline source ≠ [] := by
  obtain ⟨e, rest, rfl⟩ := List.exists_cons_of_ne_nil h
  rw [hetLines]
  simp [hetElemBlock]

theorem rootLines_ne_nil (ast : TomlNode) (leading : List String) (inline : CDict)
    (source : Option String) : rootLines ast leading inline source ≠ [] := by
  cases ast with
  | table ps => simp [rootLines]
  | string v am => simp [rootLines]
  | integer v lit => simp [rootLines]
  | float vs lit => simp [rootLines]
  | boolean b => simp [rootLines]
  | null => simp [rootLines]
  | embed c t m he =>
    rw [rootLines]
    split
    · simp
    · split <;> simp
  | array es sl el =>
    rw [rootLines]
    by_cases hn : needs_array_of_tables_format es = true
    · rw [if_pos hn]
      have hes : es ≠ [] := by
        intro hx; subst hx
        rw [needs_empty_false] at hn
        exact Bool.false_ne_true hn
      obtain ⟨e, rest, rfl⟩ := List.exists_cons_of_ne_nil hes
      rw [List.foldr_cons]
      dsimp only
      split
      · intro hx
        have hlen := congrArg List.length hx
        simp [List.length_dropLast, List.length_append] at hlen
      · simp
    · rw [if_neg hn]
      by_cases hc : check_heterogeneous es = true
      · have : (!check_heterogeneous es) = false := by rw [hc]; rfl
        rw [this, if_neg (by simp)]
        have hes : es ≠ [] := by
          intro hx; subst hx
          rw [check_het_empty_false] at hc
          exact Bool.false_ne_true hc
        simp [hetLines_ne_nil es inline source hes]
      · have : (!check_heterogeneous es) = true := by
          rw [Bool.not_eq_true] at hc; rw [hc]; rfl
        rw [this, if_pos rfl]
        exact rootPlainArray_ne_nil es leading inline source

/-- C2 (amended): for every input — every value tree, comment map, source
and token list on which the conversion succeeds — the output text is
terminated by exactly one trailing newline.  (In the case the claim excluded,
an empty table root with no comments, the output is the one-character string
`"\n"`, not the empty string: see the counterexample.) -/
theorem c2_trailing_newline_amended (kv : KsonValue) (comment_map : Option CommentMap)
    (source : Option String) (tokens : Option Unit) (out : String)
    (h : kson_to_toml_string kv comment_map source tokens = .ok out) :
    endsWithExactlyOneNewline out := by
  rw [kson_to_toml_string] at h
  cases hast : kson_value_to_ast kv tokens source with
  | error m => rw [hast] at h; exact absurd h (by simp)
  | ok ast =>
    rw [hast] at h
    simp only [Except.ok.injEq] at h
    have hrl := rootLines_ne_nil ast (comment_map.getD ⟨[], [], []⟩).leading
      (comment_map.getD ⟨[], [], []⟩).inline source
    rw [← h]
    split
    · split
      · rename_i hemp
        rw [List.isEmpty_iff] at hemp
        simp at hemp
      · exact rstrip_append_newline _
    · split
      · rename_i hemp
        rw [List.isEmpty_iff] at hemp
        exact absurd hemp hrl
      · exact rstrip_append_newline _

/-- C2 witness: the amended theorem applied at a concrete conversion. -/
theorem c2_trailing_newline_witness : endsWithExactlyOneNewline "value = true\n" :=
  c2_trailing_newline_amended (KsonValue.boolean true ⟨0, 0⟩ ⟨0, 4⟩) none none none
    "value = true\n"
    (by simp [kson_to_toml_string, kson_value_to_ast, rootLines, to_toml_node,
      TomlBoolean_to_toml, joinWith, joinWithL, pyRstrip, pyRstripL, isPySpace])

theorem foldr_het_block_mem (kn : String) (inline : CDict) (source : Option String)
    (es : List TomlNode) (e : TomlNode) (he : e ∈ es) (x : String)
    (hx : x ∈ hetElemBlock kn inline source e) :
    x ∈ es.foldr (fun e acc => hetElemBlock kn inline source e ++ acc) [] := by
  induction es with
  | nil => simp at he
  | cons a rest ih =>
    rw [List.foldr_cons]
    rcases List.mem_cons.mp he with rfl | hmem
    · exact List.mem_append_left _ hx
    · exact List.mem_append_right _ (ih hmem)

theorem het_block_of_simple (kn : String) (inline : CDict) (source : Option String)
    (e : TomlNode) (ht : isTableN e = false)
    (ha : (elementsOf e).any isTableN = false) :
    hetElemBlock kn inline source e
      = ["[[value]]", kn ++ " = " ++ to_toml_node e 0 inline source, ""] := by
  cases e with
  | table ps => simp [isTableN] at ht
  | array inner sl el =>
    rw [hetElemBlock]
    rw [elementsOf] at ha
    rw [ha]
    simp
  | string v am => simp [hetElemBlock]
  | integer v lit => simp [hetElemBlock]
  | float vs lit => simp [hetElemBlock]
  | boolean b => simp [hetElemBlock]
  | null => simp [hetElemBlock]
  | embed a b c d => simp [hetElemBlock]

theorem foldr_item_block_mem (es : List TomlNode) (e : TomlNode) (he : e ∈ es) :
    ("item = " ++ to_toml_node e 0 [] none)
      ∈ es.foldr (fun e acc => ["[[value]]", "item = " ++ to_toml_node e 0 [] none, ""] ++ acc) [] := by
  induction es with
  | nil => simp at he
  | cons a rest ih =>
    rw [List.foldr_cons]
    rcases List.mem_cons.mp he with rfl | hmem
    · exact List.mem_append_left _ (by simp)
    · exact List.mem_append_right _ (ih hmem)

theorem mem_dropLast_of_ne_last (l : List String) (x : String) (hx : x ∈ l)
    (hlast : l.getLast? = some "") (hne : x ≠ "") : x ∈ l.dropLast := by
  induction l with
  | nil => simp at hx
  | cons a rest ih =>
    cases rest with
    | nil =>
      simp at hx hlast
      subst hx; subst hlast
      exact absurd rfl hne
    | cons b t =>
      rw [List.dropLast_cons₂]
      rcases List.mem_cons.mp hx with rfl | hmem
      · exact List.mem_cons_self _ _
      · rw [List.getLast?_cons_cons] at hlast
        exact List.mem_cons_of_mem _ (ih hmem hlast)

theorem item_line_ne_empty (y : String) : ("item = " ++ y) ≠ "" := by
  intro h
  have hd := congrArg String.data h
  rw [string_append_data] at hd
  have : ("item = ").data ≠ [] := by decide
  rcases List.append_eq_nil.mp hd with ⟨h1, _⟩
  exact this h1

/-- C6 (amended): in the mixed-arrays encoding of a root array (the
`check_heterogeneous` branch), every non-table element that is not itself
an array containing tables is emitted as a `key = value` line whose key is
`list_item` iff some element of the array is a nested array or a table
(`item` otherwise); in the primitive-heterogeneity encoding
(`needs_array_of_tables_format`, tried first), every element is emitted
under the fixed key `item`, regardless of array or table siblings. -/
theorem c6_amended_key_selection :
    (∀ (es : List TomlNode) (sl el : Option Nat) (leading : List String)
        (inline : CDict) (source : Option String) (e : TomlNode),
        needs_array_of_tables_format es = false → check_heterogeneous es = true →
        e ∈ es → isTableN e = false → (elementsOf e).any isTableN = false →
        (hetKeyName es ++ " = " ++ to_toml_node e 0 inline source)
          ∈ rootLines (.array es sl el) leading inline source)
    ∧ (∀ es : List TomlNode,
        hetKeyName es = "list_item" ↔ ∃ x ∈ es, isArrayN x = true ∨ isTableN x = true)
    ∧ (∀ (es : List TomlNode) (sl el : Option Nat) (leading : List String)
        (inline : CDict) (source : Option String) (e : TomlNode),
        needs_array_of_tables_format es = true → e ∈ es →
        ("item = " ++ to_toml_node e 0 [] none)
          ∈ rootLines (.array es sl el) leading inline source) := by
  refine ⟨?_, ?_, ?_⟩
  · intro es sl el leading inline source e hn hc he ht ha
    rw [rootLines, if_neg (by rw [hn]; simp), hc]
    rw [if_neg (by simp)]
    apply List.mem_append_right
    rw [hetLines]
    exact foldr_het_block_mem (hetKeyName es) inline source es e he _
      (by rw [het_block_of_simple _ _ _ _ ht ha]; simp)
  · intro es
    rw [hetKeyName]
    by_cases hcond : (es.any isArrayN || es.any isTableN) = true
    · rw [if_pos hcond]
      simp only [Bool.or_eq_true, List.any_eq_true] at hcond
      constructor
      · intro _
        rcases hcond with ⟨x, hm, hp⟩ | ⟨x, hm, hp⟩
        · exact ⟨x, hm, Or.inl hp⟩
        · exact ⟨x, hm, Or.inr hp⟩
      · intro _; rfl
    · rw [if_neg hcond]
      constructor
      · intro hx; exact absurd hx (by decide)
      · rintro ⟨x, hm, hp | hp⟩
        · exact absurd (Bool.or_eq_true _ _ |>.mpr
            (Or.inl (List.any_eq_true.mpr ⟨x, hm, hp⟩))) hcond
        · exact absurd (Bool.or_eq_true _ _ |>.mpr
            (Or.inr (List.any_eq_true.mpr ⟨x, hm, hp⟩))) hcond
  · intro es sl el leading inline source e hn he
    rw [rootLines, if_pos hn]
    dsimp only
    have hmem : ("item = " ++ to_toml_node e 0 [] none)
        ∈ leading ++ es.foldr
          (fun e acc => ["[[value]]", "item = " ++ to_toml_node e 0 [] none, ""] ++ acc)
          [] :=
      List.mem_append_right _ (foldr_item_block_mem es e he)
    split
    · rename_i hcond
      simp only [Bool.and_eq_true, decide_eq_true_eq] at hcond
      exact mem_dropLast_of_ne_last _ _ hmem hcond.2 (item_line_ne_empty _)
    · exact hmem

/-- C6 witness: the amended theorem's mixed-arrays part applied at the root
`[[{}], "c"]`, where the string element is emitted under `list_item`. -/
theorem c6_amended_witness :
    ("list_item = " ++ to_toml_node (TomlNode.string "c" true) 0 [] none)
      ∈ rootLines (TomlNode.array
          [TomlNode.array [TomlNode.table []] none none, TomlNode.string "c" true]
          none none) [] [] none := by
  have h := c6_amended_key_selection.1
    [TomlNode.array [TomlNode.table []] none none, TomlNode.string "c" true]
    none none [] [] none (TomlNode.string "c" true)
    (by decide) (by decide) (by simp) (by decide) (by decide)
  simpa [hetKeyName, isArrayN, isTableN] using h

/-! ## C7: partition and emission order of table properties -/

/-- Group 1 of the claim: scalars, and arrays containing no table elements. -/
def is_simple_prop : TomlNode → Bool
  | .table _ => false
  | .array es _ _ => !(es.any isTableN)
  | _ => true

/-- Group 2 of the claim: arrays whose elements include at least one table. -/
def is_aot_prop : TomlNode → Bool
  | .array es _ _ => es.any isTableN
  | _ => false

theorem partitionProps_eq_filters (props : List (String × TomlNode)) :
    partitionProps props
      = (props.filter (fun p => is_simple_prop p.2),
         props.filter (fun p => is_aot_prop p.2),
         props.filter (fun p => isTableN p.2)) := by
  induction props with
  | nil => simp [partitionProps]
  | cons p rest ih =>
    obtain ⟨k, v⟩ := p
    cases v with
    | array es sl el =>
      rw [partitionProps, ih]
      by_cases h : es.any isTableN = true
      · simp [List.filter_cons, is_simple_prop, is_aot_prop, isTableN, h]
      · rw [Bool.not_eq_true] at h
        simp [List.filter_cons, is_simple_prop, is_aot_prop, isTableN, h]
    | table ps =>
      rw [partitionProps, ih]
      simp [List.filter_cons, is_simple_prop, is_aot_prop, isTableN]
    | string v am =>
      simp [partitionProps, ih, List.filter_cons, is_simple_prop, is_aot_prop, isTableN]
    | integer v lit =>
      simp [partitionProps, ih, List.filter_cons, is_simple_prop, is_aot_prop, isTableN]
    | float vs lit =>
      simp [partitionProps, ih, List.filter_cons, is_simple_prop, is_aot_prop, isTableN]
    | boolean b =>
      simp [partitionProps, ih, List.filter_cons, is_simple_prop, is_aot_prop, isTableN]
    | null =>
      simp [partitionProps, ih, List.filter_cons, is_simple_prop, is_aot_prop, isTableN]
    | embed a b c d =>
      simp [partitionProps, ih, List.filter_cons, is_simple_prop, is_aot_prop, isTableN]

/-- `(l1 ++ l2)` is non-empty iff one of the parts is. -/
theorem append_flag (acc b : List String) :
    (!(acc ++ b).isEmpty) = (!acc.isEmpty || !b.isEmpty) := by
  cases acc <;> cases b <;> simp

/-- One group-1 property as emitted by the simple-values loop: its attached
comments, then (for a promoted embed) one blank line when anything precedes,
then its lines. -/
def simplePropBlock (pc : String → List String) (indent : Nat) (path : String)
    (source : Option String) (before : Bool) (key : String) (value : TomlNode) :
    List String :=
  match value with
  | .embed c _ _ he =>
    if key = "embedContent" then
      pc key ++ [quoteKey key ++ " = " ++ TomlEmbed_to_toml c he]
    else
      pc key ++ (if before || !(pc key).isEmpty then [""] else [])
        ++ ["[" ++ joinPath path key ++ "]",
            "embedContent = " ++ TomlEmbed_to_toml c he]
  | .string s am =>
    pc key ++ [quoteKey key ++ " = "
      ++ (if key = "embedContent" then TomlString_to_toml s false
          else TomlString_to_toml s am)]
  | .integer v lit =>
    pc key ++ [quoteKey key ++ " = " ++ to_toml_node (.integer v lit) indent [] source]
  | .float vs lit =>
    pc key ++ [quoteKey key ++ " = " ++ to_toml_node (.float vs lit) indent [] source]
  | .boolean b =>
    pc key ++ [quoteKey key ++ " = " ++ to_toml_node (.boolean b) indent [] source]
  | .null => pc key ++ [quoteKey key ++ " = " ++ to_toml_node .null indent [] source]
  | .array es sl el =>
    pc key ++ [quoteKey key ++ " = " ++ to_toml_node (.array es sl el) indent [] source]
  | .table ps =>
    pc key ++ [quoteKey key ++ " = " ++ to_toml_node (.table ps) indent [] source]

/-- Group-1 lines: one block per property in declaration order, tracking
whether anything has been emitted before. -/
def simpleSpecLines (pc : String → List String) (indent : Nat) (path : String)
    (source : Option String) (before : Bool) :
    List (String × TomlNode) → List String
  | [] => []
  | (k, v) :: rest =>
    simplePropBlock pc indent path source before k v
      ++ simpleSpecLines pc indent path source
          (before || !(simplePropBlock pc indent path source before k v).isEmpty) rest

/-- One `[[path]]` block of a group-2 property's table element, preceded by
one blank line when anything precedes; non-table elements produce nothing. -/
def aotElemBlockSpec (key path : String) (source : Option String) (before : Bool)
    (e : TomlNode) : List String :=
  match e with
  | .table ps =>
    (if before then [""] else []) ++ ["[[" ++ joinPath path key ++ "]]"]
      ++ (pySplitLines (to_toml_table ps 0 (joinPath path key) [] source)).filter
          (fun l => !(pyStrip l).data.isEmpty && !(strStartsWith (pyStrip l) "["))
  | _ => []

def aotElemsSpec (key path : String) (source : Option String) (before : Bool) :
    List TomlNode → List String
  | [] => []
  | e :: rest =>
    aotElemBlockSpec key path source before e
      ++ aotElemsSpec key path source
          (before || !(aotElemBlockSpec key path source before e).isEmpty) rest

/-- Group-2 lines: the `[[path]]` blocks of each array-of-tables property,
in declaration order. -/
def aotSpecLines (path : String) (source : Option String) (before : Bool) :
    List (String × TomlNode) → List String
  | [] => []
  | (k, .array es sl el) :: rest =>
    aotElemsSpec k path source before es
      ++ aotSpecLines path source
          (before || !(aotElemsSpec k path source before es).isEmpty) rest
  | _ :: rest => aotSpecLines path source before rest

/-- Group-3 lines: one `[path]` block per nested table, in declaration
order, preceded by one blank line when anything precedes. -/
def ntSpecLines (path : String) (source : Option String) (before : Bool) :
    List (String × TomlNode) → List String
  | [] => []
  | (k, .table ps) :: rest =>
    ((if before then [""] else [])
        ++ ["[" ++ joinPath path k ++ "]", to_toml_table ps 0 (joinPath path k) [] source])
      ++ ntSpecLines path source true rest
  | _ :: rest => ntSpecLines path source before rest

theorem simpleLoop_eq (svs : List (String × TomlNode)) (pc : String → List String)
    (indent : Nat) (path : String) (source : Option String) (acc : List String) :
    simpleLoop svs pc indent path source acc
      = acc ++ simpleSpecLines pc indent path source (!acc.isEmpty) svs := by
  induction svs generalizing acc with
  | nil => simp [simpleLoop, simpleSpecLines]
  | cons p rest ih =>
    obtain ⟨key, value⟩ := p
    cases value with
    | embed c t m he =>
      rw [simpleLoop, ih, simpleSpecLines, simplePropBlock]
      by_cases hk : key = "embedContent"
      · simp [hk, append_flag, List.append_assoc]
      · simp only [if_neg hk]
        by_cases ha : acc.isEmpty = true <;> by_cases hp : (pc key).isEmpty = true <;>
          simp_all [List.isEmpty_iff, append_flag, List.append_assoc]
    | string s am =>
      rw [simpleLoop, ih, simpleSpecLines, simplePropBlock]
      simp [append_flag, List.append_assoc]
    | integer v lit =>
      rw [simpleLoop, ih, simpleSpecLines] <;>
        try (intros; rename_i hx; exact absurd hx (by simp))
      simp [simplePropBlock, append_flag, List.append_assoc]
    | float vs lit =>
      rw [simpleLoop, ih, simpleSpecLines] <;>
        try (intros; rename_i hx; exact absurd hx (by simp))
      simp [simplePropBlock, append_flag, List.append_assoc]
    | boolean b =>
      rw [simpleLoop, ih, simpleSpecLines] <;>
        try (intros; rename_i hx; exact absurd hx (by simp))
      simp [simplePropBlock, append_flag, List.append_assoc]
    | null =>
      rw [simpleLoop, ih, simpleSpecLines] <;>
        try (intros; rename_i hx; exact absurd hx (by simp))
      simp [simplePropBlock, append_flag, List.append_assoc]
    | array es sl el =>
      rw [simpleLoop, ih, simpleSpecLines] <;>
        try (intros; rename_i hx; exact absurd hx (by simp))
      simp [simplePropBlock, append_flag, List.append_assoc]
    | table ps =>
      rw [simpleLoop, ih, simpleSpecLines] <;>
        try (intros; rename_i hx; exact absurd hx (by simp))
      simp [simplePropBlock, append_flag, List.append_assoc]
termination_by svs

theorem aotElemsLoop_eq (es : List TomlNode) (key path : String)
    (source : Option String) (acc : List String) :
    aotElemsLoop es key path source acc
      = acc ++ aotElemsSpec key path source (!acc.isEmpty) es := by
  induction es generalizing acc with
  | nil => simp [aotElemsLoop, aotElemsSpec]
  | cons e rest ih =>
    cases e with
    | table ps =>
      rw [aotElemsLoop, ih, aotElemsSpec, aotElemBlockSpec]
      by_cases ha : acc.isEmpty = true <;>
        simp_all [List.isEmpty_iff, append_flag, List.append_assoc]
    | string v am =>
      rw [aotElemsLoop, ih, aotElemsSpec] <;>
        try (intros; rename_i hx; exact absurd hx (by simp))
      simp [aotElemBlockSpec]
    | integer v lit =>
      rw [aotElemsLoop, ih, aotElemsSpec] <;>
        try (intros; rename_i hx; exact absurd hx (by simp))
      simp [aotElemBlockSpec]
    | float vs lit =>
      rw [aotElemsLoop, ih, aotElemsSpec] <;>
        try (intros; rename_i hx; exact absurd hx (by simp))
      simp [aotElemBlockSpec]
    | boolean b =>
      rw [aotElemsLoop, ih, aotElemsSpec] <;>
        try (intros; rename_i hx; exact absurd hx (by simp))
      simp [aotElemBlockSpec]
    | null =>
      rw [aotElemsLoop, ih, aotElemsSpec] <;>
        try (intros; rename_i hx; exact absurd hx (by simp))
      simp [aotElemBlockSpec]
    | array a b c =>
      rw [aotElemsLoop, ih, aotElemsSpec] <;>
        try (intros; rename_i hx; exact absurd hx (by simp))
      simp [aotElemBlockSpec]
    | embed a b c d =>
      rw [aotElemsLoop, ih, aotElemsSpec] <;>
        try (intros; rename_i hx; exact absurd hx (by simp))
      simp [aotElemBlockSpec]

theorem aotLoop_eq (nas : List (String × TomlNode)) (path : String)
    (source : Option String) (acc : List String) :
    aotLoop nas path source acc
      = acc ++ aotSpecLines path source (!acc.isEmpty) nas := by
  induction nas generalizing acc with
  | nil => simp [aotLoop, aotSpecLines]
  | cons p rest ih =>
    obtain ⟨k, v⟩ := p
    cases v with
    | array es sl el =>
      rw [aotLoop, ih, aotSpecLines, aotElemsLoop_eq, append_flag,
        List.append_assoc]
    | string a b =>
      rw [aotLoop, ih, aotSpecLines] <;>
        try (intros; rename_i hx; exact absurd hx (by simp))
    | integer a b =>
      rw [aotLoop, ih, aotSpecLines] <;>
        try (intros; rename_i hx; exact absurd hx (by simp))
    | float a b =>
      rw [aotLoop, ih, aotSpecLines] <;>
        try (intros; rename_i hx; exact absurd hx (by simp))
    | boolean a =>
      rw [aotLoop, ih, aotSpecLines] <;>
        try (intros; rename_i hx; exact absurd hx (by simp))
    | null =>
      rw [aotLoop, ih, aotSpecLines] <;>
        try (intros; rename_i hx; exact absurd hx (by simp))
    | table a =>
      rw [aotLoop, ih, aotSpecLines] <;>
        try (intros; rename_i hx; exact absurd hx (by simp))
    | embed a b c d =>
      rw [aotLoop, ih, aotSpecLines] <;>
        try (intros; rename_i hx; exact absurd hx (by simp))

theorem ntLoop_eq (nts : List (String × TomlNode)) (path : String)
    (source : Option String) (acc : List String) :
    ntLoop nts path source acc
      = acc ++ ntSpecLines path source (!acc.isEmpty) nts := by
  induction nts generalizing acc with
  | nil => simp [ntLoop, ntSpecLines]
  | cons p rest ih =>
    obtain ⟨k, v⟩ := p
    cases v with
    | table ps =>
      rw [ntLoop, ih, ntSpecLines]
      by_cases ha : acc.isEmpty = true <;>
        simp_all [List.isEmpty_iff, append_flag, List.append_assoc]
    | string a b =>
      rw [ntLoop, ih, ntSpecLines] <;>
        try (intros; rename_i hx; exact absurd hx (by simp))
    | integer a b =>
      rw [ntLoop, ih, ntSpecLines] <;>
        try (intros; rename_i hx; exact absurd hx (by simp))
    | float a b =>
      rw [ntLoop, ih, ntSpecLines] <;>
        try (intros; rename_i hx; exact absurd hx (by simp))
    | boolean a =>
      rw [ntLoop, ih, ntSpecLines] <;>
        try (intros; rename_i hx; exact absurd hx (by simp))
    | null =>
      rw [ntLoop, ih, ntSpecLines] <;>
        try (intros; rename_i hx; exact absurd hx (by simp))
    | array a b c =>
      rw [ntLoop, ih, ntSpecLines] <;>
        try (intros; rename_i hx; exact absurd hx (by simp))
    | embed a b c d =>
      rw [ntLoop, ih, ntSpecLines] <;>
        try (intros; rename_i hx; exact absurd hx (by simp))

/-- The claim's rendering of a table: partition the properties into the
three order-preserving groups, emit group 1, then group 2, then group 3,
with one blank line before each block whenever anything precedes it. -/
def tableRenderSpec (props : List (String × TomlNode)) (indent : Nat) (path : String)
    (cm : CDict) (source : Option String) : String :=
  let g1 := props.filter (fun p => is_simple_prop p.2)
  let g2 := props.filter (fun p => is_aot_prop p.2)
  let g3 := props.filter (fun p => isTableN p.2)
  let pc : String → List String :=
    match source with
    | some src =>
      if pyTruthyOptStr source && !cm.isEmpty && !g1.isEmpty then
        fun k => propertyCommentsFor cm (pySplitLines src) k
      else fun _ => []
    | none => fun _ => []
  let L1 := simpleSpecLines pc indent path source false g1
  let L2 := aotSpecLines path source (!L1.isEmpty) g2
  let L3 := ntSpecLines path source (!(L1 ++ L2).isEmpty) g3
  joinWith "\n" (L1 ++ L2 ++ L3)

/-- C7: `TomlTable.to_toml` partitions its properties into (1) scalars and
arrays without table elements, (2) arrays with table elements, (3) nested
tables — each group preserving declaration order — and emits group 1, then
group 2, then group 3, one blank line before each block when anything
precedes it; in particular all simple properties appear, in declaration
order, before any nested-table or array-of-tables block. -/
theorem c7_table_partition_order (props : List (String × TomlNode)) (indent : Nat)
    (path : String) (cm : CDict) (source : Option String) :
    to_toml_table props indent path cm source
      = tableRenderSpec props indent path cm source := by
  rw [to_toml_table.eq_def, tableRenderSpec.eq_def]
  rw [partitionProps_eq_filters props]
  dsimp only
  rw [simpleLoop_eq, aotLoop_eq, ntLoop_eq]
  simp only [List.isEmpty_nil, Bool.not_true, List.nil_append, append_flag,
    List.append_assoc]

end Kson2Toml